import Mathlib

/-!
Verification of the map rendering / area matching scripts
(`src/map.js` and `scripts/validateAreas.js`).

The JavaScript code is embedded shallowly:

* JavaScript runtime values are modelled by the inductive type `JSVal`.
  Numbers are modelled by `ℚ` (every numeric literal appearing in the
  data files is an exactly representable decimal), with `JSVal.nan` as a
  separate marker for the non-finite results of failed coercions.
* `undefined` is a first-class value `JSVal.undefined`; reading an absent
  object property yields it, exactly as in JavaScript.
* String-manipulating library calls (`trim`, `replace(/\s+/g,' ')`,
  `toLowerCase`, `includes`) are implemented character by character on
  `List Char`, following the corresponding regular expressions.
  `toLowerCase` is modelled on the basic latin range (the only range the
  repository's data exercises) using core `Char.toLower`.
-/

/-- JavaScript runtime values (the fragment used by the scripts). -/
inductive JSVal where
  | undefined
  | null
  | nan
  | bool (b : Bool)
  | num (q : ℚ)
  | str (s : String)
  | arr (elems : List JSVal)
  | obj (fields : List (String × JSVal))

/-- Code points matched by the JavaScript regexp class `\s` (also the
code points removed by `String.prototype.trim`). -/
def jsWs (n : Nat) : Prop :=
  n = 9 ∨ n = 10 ∨ n = 11 ∨ n = 12 ∨ n = 13 ∨ n = 32 ∨ n = 160 ∨
  n = 5760 ∨ (8192 ≤ n ∧ n ≤ 8202) ∨ n = 8232 ∨ n = 8233 ∨ n = 8239 ∨
  n = 8287 ∨ n = 12288 ∨ n = 65279

instance (n : Nat) : Decidable (jsWs n) := by
  unfold jsWs
  infer_instance

/-- Characters matched by the JavaScript regexp class `\s`. -/
def jsWsB (c : Char) : Bool :=
  decide (jsWs c.toNat)

/-- Removing a trailing run of characters satisfying `p`. -/
def dropTrailing (p : Char → Bool) (l : List Char) : List Char :=
  (l.reverse.dropWhile p).reverse

/-- `String.prototype.trim` on the underlying character list. -/
def jsTrimList (l : List Char) : List Char :=
  dropTrailing jsWsB (l.dropWhile jsWsB)

/-- `String.prototype.trim`. -/
def jsTrim (s : String) : String :=
  String.mk (jsTrimList s.data)

/-- `replace(/\s+/g, ' ')`: each maximal run of whitespace becomes a single
space.  The flag records whether the previous character was part of a
whitespace run. -/
def collapseWsAux (prevWs : Bool) : List Char → List Char
  | [] => []
  | c :: rest =>
    if jsWsB c then
      if prevWs then collapseWsAux true rest
      else ' ' :: collapseWsAux true rest
    else c :: collapseWsAux false rest

/-- Decimal digits of the fraction `r / d` (with `0 ≤ r < d`); `fuel`
bounds the number of produced digits, enough for every number the data
files can denote. -/
def fracDigits (fuel : Nat) (r d : Nat) : List Char :=
  match fuel with
  | 0 => []
  | fuel + 1 =>
    if r = 0 then []
    else Char.ofNat (48 + r * 10 / d) :: fracDigits fuel (r * 10 % d) d

/-- JavaScript number-to-string conversion (`String(n)`) for the finite
numbers of the model, computed from the reduced numerator/denominator. -/
def jsNumToString (q : ℚ) : String :=
  let sign := if q.num < 0 then "-" else ""
  let m := q.num.natAbs
  let ip := m / q.den
  let r := m % q.den
  if r = 0 then sign ++ toString ip
  else sign ++ toString ip ++ "." ++ String.mk (fracDigits 64 r q.den)

mutual

/-- JavaScript `String(value)` conversion. -/
def jsToString : JSVal → String
  | .undefined => "undefined"
  | .null => "null"
  | .nan => "NaN"
  | .bool true => "true"
  | .bool false => "false"
  | .num q => jsNumToString q
  | .str s => s
  | .arr xs => String.intercalate "," (jsToStringElems xs)
  | .obj _ => "[object Object]"

/-- Array elements under `String(·)`: `null` and `undefined` become the
empty string inside an array join. -/
def jsToStringElems : List JSVal → List String
  | [] => []
  | .undefined :: rest => "" :: jsToStringElems rest
  | .null :: rest => "" :: jsToStringElems rest
  | v :: rest => jsToString v :: jsToStringElems rest

end

/-- JavaScript falsiness. -/
def JSVal.falsy : JSVal → Bool
  | .undefined => true
  | .null => true
  | .nan => true
  | .bool b => !b
  | .num q => q == 0
  | .str s => s == ""
  | .arr _ => false
  | .obj _ => false

/-- First-match association-list lookup (JavaScript objects in this model
never carry duplicate keys: the JSON builder overwrites). -/
def lookupField : List (String × JSVal) → String → JSVal
  | [], _ => .undefined
  | (k, x) :: rest, f => if k == f then x else lookupField rest f

/-- JavaScript property read `v[field]`: `undefined` on non-objects and
absent properties. -/
def jsIndex (v : JSVal) (field : String) : JSVal :=
  match v with
  | .obj fields => lookupField fields field
  | _ => .undefined

/-- `String.prototype.includes`: `sub` occurs contiguously in `s`. -/
def jsIncludes (s sub : String) : Bool :=
  s.data.tails.any (fun t => sub.data.isPrefixOf t)

/-- The character-list pipeline of `normalizeStringValue`:
`trim`, then `replace(/\s+/g, ' ')`, then `toLowerCase`. -/
def normList (l : List Char) : List Char :=
  (collapseWsAux false (jsTrimList l)).map Char.toLower

/-- `normalizeStringValue` from `src/map.js` (lines 216-223): empty string
for `undefined`/`null`, otherwise `String(value).trim().replace(/\s+/g,
' ').toLowerCase()`. -/
def normalizeStringValue (value : JSVal) : String :=
  match value with
  | .undefined => ""
  | .null => ""
  | v => String.mk (normList (jsToString v).data)

/-- `filterDataByObject` from `src/map.js` (lines 225-244), restricted to
the case where `dataArray` is an array (for any other argument the
function returns `[]` before reaching the filter). -/
def filterDataByObject (dataArray : List JSVal) (matchField : String)
    (matchValue : JSVal) : List JSVal :=
  let normalizedMatchValue := normalizeStringValue matchValue
  dataArray.filter fun item =>
    let fieldValue := jsIndex item matchField
    if fieldValue.falsy then false
    else
      let normalizedFieldValue := normalizeStringValue fieldValue
      normalizedFieldValue == normalizedMatchValue ||
      jsIncludes normalizedFieldValue normalizedMatchValue ||
      jsIncludes normalizedMatchValue normalizedFieldValue

/-! ### JSON.parse: lexer -/

/-- JSON (RFC 8259) insignificant whitespace. -/
def jsonWsB (c : Char) : Bool :=
  decide (c.toNat = 32 ∨ c.toNat = 9 ∨ c.toNat = 10 ∨ c.toNat = 13)

/-- JSON tokens. -/
inductive JTok where
  | lbrace
  | rbrace
  | lbrack
  | rbrack
  | colon
  | comma
  | tstr (s : String)
  | tnum (q : ℚ)
  | ttrue
  | tfalse
  | tnull

/-- ASCII decimal digit. -/
def digitB (c : Char) : Bool :=
  decide (48 ≤ c.toNat ∧ c.toNat ≤ 57)

/-- Value of a decimal digit string. -/
def digitsToNat (l : List Char) : Nat :=
  l.foldl (fun a c => a * 10 + (c.toNat - 48)) 0

/-- Exponent part of a JSON number (the characters after `e`/`E`). -/
def expValue : List Char → Option ℤ
  | '+' :: t => if !t.isEmpty && t.all digitB then some (digitsToNat t) else none
  | '-' :: t => if !t.isEmpty && t.all digitB then some (-(digitsToNat t : ℤ)) else none
  | t => if !t.isEmpty && t.all digitB then some (digitsToNat t) else none

/-- `mant * 10 ^ (ex - fracLen)` as a rational. -/
def applyExp (mant : ℤ) (fracLen : Nat) (ex : ℤ) : ℚ :=
  let p : ℤ := ex - fracLen
  if 0 ≤ p then mkRat (mant * 10 ^ p.toNat) 1
  else mkRat mant (10 ^ (-p).toNat)

/-- Leading minus sign of a JSON number. -/
def splitSign : List Char → ℤ × List Char
  | '-' :: t => (-1, t)
  | l => (1, l)

/-- The JSON number grammar `-? (0 | [1-9][0-9]*) (. [0-9]+)?
([eE] [+-]? [0-9]+)?`, applied to a whole token: its rational value, or
`none` if the token violates the grammar. -/
def numLit? (l : List Char) : Option ℚ :=
  let s := splitSign l
  let ipart := s.2.takeWhile digitB
  let rest1 := s.2.dropWhile digitB
  if ipart.isEmpty then none
  else if 2 ≤ ipart.length ∧ ipart.head? = some '0' then none
  else
    match rest1 with
    | [] => some (mkRat (s.1 * digitsToNat ipart) 1)
    | '.' :: t =>
      let fpart := t.takeWhile digitB
      let rest2 := t.dropWhile digitB
      if fpart.isEmpty then none
      else
        let mant : ℤ := s.1 * (digitsToNat ipart * 10 ^ fpart.length + digitsToNat fpart)
        match rest2 with
        | [] => some (mkRat mant (10 ^ fpart.length))
        | e :: t2 =>
          if e.toNat = 101 ∨ e.toNat = 69 then (expValue t2).map (applyExp mant fpart.length)
          else none
    | e :: t2 =>
      if e.toNat = 101 ∨ e.toNat = 69 then
        (expValue t2).map (applyExp (s.1 * digitsToNat ipart) 0)
      else none

/-- Characters that extend a number token during lexing (validity of the
full token is checked by `numLit?` when the token ends). -/
def numTokChar (c : Char) : Bool :=
  decide ((48 ≤ c.toNat ∧ c.toNat ≤ 57) ∨ c.toNat = 46 ∨ c.toNat = 101 ∨
    c.toNat = 69 ∨ c.toNat = 43 ∨ c.toNat = 45)

/-- JSON string escapes (other than `\u`). -/
def escChar? (c : Char) : Option Char :=
  if c.toNat = 34 then some (Char.ofNat 34)
  else if c.toNat = 92 then some (Char.ofNat 92)
  else if c.toNat = 47 then some (Char.ofNat 47)
  else if c.toNat = 98 then some (Char.ofNat 8)
  else if c.toNat = 102 then some (Char.ofNat 12)
  else if c.toNat = 110 then some (Char.ofNat 10)
  else if c.toNat = 114 then some (Char.ofNat 13)
  else if c.toNat = 116 then some (Char.ofNat 9)
  else none

/-- Hexadecimal digit value. -/
def hexVal? (c : Char) : Option Nat :=
  if 48 ≤ c.toNat ∧ c.toNat ≤ 57 then some (c.toNat - 48)
  else if 65 ≤ c.toNat ∧ c.toNat ≤ 70 then some (c.toNat - 55)
  else if 97 ≤ c.toNat ∧ c.toNat ≤ 102 then some (c.toNat - 87)
  else none

/-- Value of a hex digit string. -/
def hexListVal (l : List Char) : Nat :=
  l.foldl (fun a c => a * 16 + (hexVal? c).getD 0) 0

/-- Lexer modes: at top level, inside a string (plain, after a backslash,
inside a `\u` escape), inside a number token, or inside a
`true`/`false`/`null` literal. -/
inductive LexMode where
  | top
  | strM (acc : List Char)
  | escM (acc : List Char)
  | uniM (acc : List Char) (pend : List Char)
  | numM (acc : List Char)
  | litM (exp : List Char) (tok : JTok)

/-- What the lexer does with one character at top level. -/
inductive TopStep where
  | ws
  | sym (t : JTok)
  | enter (m : LexMode)
  | bad

/-- Top-level character dispatch. -/
def topDispatch (c : Char) : TopStep :=
  if jsonWsB c then .ws
  else if c.toNat = 123 then .sym .lbrace
  else if c.toNat = 125 then .sym .rbrace
  else if c.toNat = 91 then .sym .lbrack
  else if c.toNat = 93 then .sym .rbrack
  else if c.toNat = 58 then .sym .colon
  else if c.toNat = 44 then .sym .comma
  else if c.toNat = 34 then .enter (.strM [])
  else if c.toNat = 116 then .enter (.litM ['r', 'u', 'e'] .ttrue)
  else if c.toNat = 102 then .enter (.litM ['a', 'l', 's', 'e'] .tfalse)
  else if c.toNat = 110 then .enter (.litM ['u', 'l', 'l'] .tnull)
  else if (48 ≤ c.toNat ∧ c.toNat ≤ 57) ∨ c.toNat = 45 then .enter (.numM [c])
  else .bad

/-- Result of one lexer step: continue in a mode, emit one or two tokens
and continue, or fail. -/
inductive StepRes where
  | cont (m : LexMode)
  | emit (t : JTok) (m : LexMode)
  | emit2 (t1 t2 : JTok) (m : LexMode)
  | fail

/-- One character of lexing.  `\u` escapes denoting surrogate halves are
modelled by `Char.ofNat`'s replacement character (the repository's data
never contains them). -/
def lexStep : LexMode → Char → StepRes
  | .top, c =>
    match topDispatch c with
    | .ws => .cont .top
    | .sym t => .emit t .top
    | .enter m => .cont m
    | .bad => .fail
  | .strM acc, c =>
    if c.toNat = 34 then .emit (JTok.tstr (String.mk acc.reverse)) .top
    else if c.toNat = 92 then .cont (.escM acc)
    else if c.toNat < 32 then .fail
    else .cont (.strM (c :: acc))
  | .escM acc, c =>
    if c.toNat = 117 then .cont (.uniM acc [])
    else
      match escChar? c with
      | some d => .cont (.strM (d :: acc))
      | none => .fail
  | .uniM acc pend, c =>
    match hexVal? c with
    | none => .fail
    | some _ =>
      if pend.length = 3 then .cont (.strM (Char.ofNat (hexListVal (pend ++ [c])) :: acc))
      else .cont (.uniM acc (pend ++ [c]))
  | .numM acc, c =>
    if numTokChar c then .cont (.numM (acc ++ [c]))
    else
      match numLit? acc with
      | none => .fail
      | some q =>
        match topDispatch c with
        | .ws => .emit (JTok.tnum q) .top
        | .sym t => .emit2 (JTok.tnum q) t .top
        | .enter m => .emit (JTok.tnum q) m
        | .bad => .fail
  | .litM exp tok, c =>
    match exp with
    | [] => .fail
    | e :: exp2 =>
      if c = e then
        if exp2.isEmpty then .emit tok .top
        else .cont (.litM exp2 tok)
      else .fail

/-- Token list produced when the input ends in the given mode. -/
def lexFinish : LexMode → Option (List JTok)
  | .top => some []
  | .numM acc => (numLit? acc).map fun q => [JTok.tnum q]
  | _ => none

/-- The lexer: a deterministic character automaton. -/
def lexChars : LexMode → List Char → Option (List JTok)
  | m, [] => lexFinish m
  | m, c :: rest =>
    match lexStep m c with
    | .cont m2 => lexChars m2 rest
    | .emit t m2 => (lexChars m2 rest).map (t :: ·)
    | .emit2 t1 t2 m2 => (lexChars m2 rest).map (fun ts => t1 :: t2 :: ts)
    | .fail => none

/-- Tokenization of a character list. -/
def lex (l : List Char) : Option (List JTok) :=
  lexChars .top l

/-! ### JSON.parse: token-level recursive-descent parser -/

/-- Object-field insertion: a later duplicate key overwrites the earlier
value in place, as JSON.parse does. -/
def objInsert : List (String × JSVal) → String → JSVal → List (String × JSVal)
  | [], k, v => [(k, v)]
  | (k2, v2) :: rest, k, v =>
    if k2 == k then (k, v) :: rest else (k2, v2) :: objInsert rest k v

mutual

/-- Parse one JSON value from a token list (fuelled; the wrapper passes
ample fuel). -/
def parseVal : Nat → List JTok → Option (JSVal × List JTok)
  | 0, _ => none
  | _ + 1, [] => none
  | fuel + 1, t :: rest =>
    match t with
    | .tstr s => some (.str s, rest)
    | .tnum q => some (.num q, rest)
    | .ttrue => some (.bool true, rest)
    | .tfalse => some (.bool false, rest)
    | .tnull => some (.null, rest)
    | .lbrack =>
      match rest with
      | .rbrack :: rest2 => some (.arr [], rest2)
      | _ => parseArrItems fuel rest []
    | .lbrace =>
      match rest with
      | .rbrace :: rest2 => some (.obj [], rest2)
      | _ => parseObjItems fuel rest []
    | _ => none

/-- Parse the remaining comma-separated elements of a non-empty array. -/
def parseArrItems : Nat → List JTok → List JSVal → Option (JSVal × List JTok)
  | 0, _, _ => none
  | fuel + 1, toks, acc =>
    match parseVal fuel toks with
    | none => none
    | some (v, rest) =>
      match rest with
      | .comma :: rest2 => parseArrItems fuel rest2 (acc ++ [v])
      | .rbrack :: rest2 => some (.arr (acc ++ [v]), rest2)
      | _ => none

/-- Parse the remaining comma-separated members of a non-empty object. -/
def parseObjItems : Nat → List JTok → List (String × JSVal) → Option (JSVal × List JTok)
  | 0, _, _ => none
  | fuel + 1, toks, acc =>
    match toks with
    | .tstr k :: .colon :: rest =>
      match parseVal fuel rest with
      | none => none
      | some (v, rest2) =>
        match rest2 with
        | .comma :: rest3 => parseObjItems fuel rest3 (objInsert acc k v)
        | .rbrace :: rest3 => some (.obj (objInsert acc k v), rest3)
        | _ => none
    | _ => none

end

/-- Parse a full token list as one JSON value. -/
def parseToks (toks : List JTok) : Option JSVal :=
  match parseVal (2 * toks.length + 2) toks with
  | some (v, []) => some v
  | _ => none

/-- `JSON.parse`: `none` models a thrown `SyntaxError`. -/
def jsonParse (s : String) : Option JSVal :=
  match lex s.data with
  | none => none
  | some toks => parseToks toks

/-- Is the value an array (`Array.isArray`)? -/
def isArrB : JSVal → Bool
  | .arr _ => true
  | _ => false

/-- Is the value an object literal? -/
def isObjB : JSVal → Bool
  | .obj _ => true
  | _ => false

/-! ### The repair pass (`buildJsonFromObjectStrings`) -/

/-- `replace(/^\[/, '')`. -/
def stripLeadBracket : List Char → List Char
  | [] => []
  | c :: t => if c.toNat = 91 then t else c :: t

/-- `replace(/\]$/, '')`. -/
def stripTrailBracket (l : List Char) : List Char :=
  match l.reverse with
  | [] => l
  | c :: t => if c.toNat = 93 then t.reverse else l

/-- Match the split delimiter `\x7d\s*,\s*\x7b` at the head of the list;
on success return the input after the delimiter. -/
def braceCommaBrace? (l : List Char) : Option (List Char) :=
  match l with
  | [] => none
  | c :: t =>
    if c.toNat = 125 then
      match t.dropWhile jsWsB with
      | [] => none
      | d :: t2 =>
        if d.toNat = 44 then
          match t2.dropWhile jsWsB with
          | [] => none
          | e :: t4 => if e.toNat = 123 then some t4 else none
        else none
    else none

/-- `split(/\x7d\s*,\s*\x7b/)`: `cur` is the reversed current chunk. -/
def splitBcb (fuel : Nat) (cur : List Char) (l : List Char) : List (List Char) :=
  match fuel with
  | 0 => [cur.reverse ++ l]
  | fuel + 1 =>
    match l with
    | [] => [cur.reverse]
    | c :: t =>
      match braceCommaBrace? (c :: t) with
      | some rest => cur.reverse :: splitBcb fuel [] rest
      | none => splitBcb fuel (c :: cur) t

/-- Trim a chunk and re-add the braces lost in the split. -/
def ensureBraces (chunk : List Char) : List Char :=
  let n := jsTrimList chunk
  let n1 := if n.head? = some '\x7b' then n else '\x7b' :: n
  if n1.getLast? = some '\x7d' then n1 else n1 ++ ['\x7d']

/-- `replace(/\\/g, '\\\\')`. -/
def escapeBackslashes : List Char → List Char
  | [] => []
  | c :: t =>
    if c.toNat = 92 then c :: c :: escapeBackslashes t else c :: escapeBackslashes t

/-- `replace(/"/g, '\\"')`. -/
def escapeQuotes : List Char → List Char
  | [] => []
  | c :: t =>
    if c.toNat = 34 then '\\' :: c :: escapeQuotes t else c :: escapeQuotes t

/-- The key character class `[^,\x7b:]`. -/
def keyClassB (c : Char) : Bool :=
  decide (¬ (c.toNat = 44 ∨ c.toNat = 123 ∨ c.toNat = 58))

/-- One match attempt of `([\x7b,]\s*)([^,\x7b:]+?)(\s*:\s*)` at a
position whose character `c` is `\x7b` or a comma, with `t` the input
after `c`.  Returns the replacement text for the matched span (the key
trimmed, quote-escaped and wrapped in quotes) and the input remaining
after the match.  The lazy `+?` makes the key the shortest candidate:
everything up to the colon minus trailing whitespace; when that region is
all whitespace, the greedy `\s*` of group 1 backtracks one character and
the key is a single whitespace character. -/
def keyMatch? (c : Char) (t : List Char) : Option (List Char × List Char) :=
  let m := t.takeWhile keyClassB
  match t.dropWhile keyClassB with
  | [] => none
  | colon :: afterColon =>
    if colon.toNat = 58 ∧ ¬ m.isEmpty then
      let rem := m.dropWhile jsWsB
      let parts :=
        if rem.isEmpty then (m.dropLast, [m.getLast?.getD ' '], ([] : List Char))
        else (m.takeWhile jsWsB, dropTrailing jsWsB rem, (rem.reverse.takeWhile jsWsB).reverse)
      let wsAfter := afterColon.takeWhile jsWsB
      some (c :: parts.1 ++ '"' :: escapeQuotes (jsTrimList parts.2.1) ++ '"' ::
              parts.2.2 ++ ':' :: wsAfter,
            afterColon.dropWhile jsWsB)
    else none

/-- The `quotedKeys` pass: global replacement with
`([\x7b,]\s*)([^,\x7b:]+?)(\s*:\s*)`. -/
def quoteKeys (fuel : Nat) (l : List Char) : List Char :=
  match fuel with
  | 0 => l
  | fuel + 1 =>
    match l with
    | [] => []
    | c :: t =>
      if c.toNat = 123 ∨ c.toNat = 44 then
        match keyMatch? c t with
        | some (repl, rest) => repl ++ quoteKeys fuel rest
        | none => c :: quoteKeys fuel t
      else c :: quoteKeys fuel t

/-- The value character class `[^,"\x7d\x7b\[\]]`. -/
def valClassB (c : Char) : Bool :=
  decide (¬ (c.toNat = 44 ∨ c.toNat = 34 ∨ c.toNat = 125 ∨ c.toNat = 123 ∨
    c.toNat = 91 ∨ c.toNat = 93))

/-- The numeric-literal test `/^-?\d+(?:[.,]\d+)?$/`. -/
def numericLitB (l : List Char) : Bool :=
  let s :=
    match l with
    | c :: t => if c.toNat = 45 then t else c :: t
    | [] => []
  let d1 := s.takeWhile digitB
  match s.dropWhile digitB with
  | [] => !d1.isEmpty
  | c :: t =>
    if c.toNat = 46 ∨ c.toNat = 44 then
      !d1.isEmpty && !(t.takeWhile digitB).isEmpty && (t.dropWhile digitB).isEmpty
    else false

/-- `replace(',', '.')`: first occurrence only, as with a string pattern. -/
def replaceFirstCommaDot : List Char → List Char
  | [] => []
  | c :: t => if c.toNat = 44 then '.' :: t else c :: replaceFirstCommaDot t

/-- One match attempt of `:\s*([^,"\x7d\x7b\[\]]+)(?=\s*[\x7d,])` just
after a colon, with `t` the input after the colon.  The greedy group
takes the whole class run; the lookahead requires the next character
after the run to be a comma or closing brace.  Returns the replacement
text (`: ` followed by the trimmed value, comma-decimal numbers rewritten
with a dot, other values quote-escaped and quoted) and the input
remaining after the match. -/
def valMatch? (t : List Char) : Option (List Char × List Char) :=
  let n := t.takeWhile valClassB
  let afterN := t.dropWhile valClassB
  if n.isEmpty then none
  else
    match afterN.head? with
    | none => none
    | some d =>
      if d.toNat = 44 ∨ d.toNat = 125 then
        let rem := n.dropWhile jsWsB
        let group1 := if rem.isEmpty then [n.getLast?.getD ' '] else rem
        let trimmedValue := jsTrimList group1
        let repl :=
          if numericLitB trimmedValue then
            ':' :: ' ' :: replaceFirstCommaDot trimmedValue
          else ':' :: ' ' :: '"' :: escapeQuotes trimmedValue ++ ['"']
        some (repl, afterN)
      else none

/-- The `quotedValues` pass: global replacement with
`:\s*([^,"\x7d\x7b\[\]]+)(?=\s*[\x7d,])`. -/
def quoteValues (fuel : Nat) (l : List Char) : List Char :=
  match fuel with
  | 0 => l
  | fuel + 1 =>
    match l with
    | [] => []
    | c :: t =>
      if c.toNat = 58 then
        match valMatch? t with
        | some (repl, rest) => repl ++ quoteValues fuel rest
        | none => c :: quoteValues fuel t
      else c :: quoteValues fuel t

/-- `join(',')` on character lists. -/
def joinComma : List (List Char) → List Char
  | [] => []
  | [x] => x
  | x :: xs => x ++ ',' :: joinComma xs

/-- `buildJsonFromObjectStrings` from `src/map.js` (lines 60-99). -/
def buildJsonFromObjectStrings (rawString : String) : String :=
  let cleaned := stripTrailBracket (stripLeadBracket (jsTrimList rawString.data))
  if cleaned.isEmpty then "[]"
  else
    let chunks := (splitBcb (cleaned.length + 1) [] cleaned).map ensureBraces
    let jsonReady := chunks.map fun chunk =>
      let esc := escapeBackslashes chunk
      let qk := quoteKeys (esc.length + 1) esc
      quoteValues (qk.length + 1) qk
    String.mk ('[' :: joinComma jsonReady ++ [']'])

/-- `parseObjectsStringManually` from `src/map.js` (lines 101-110):
`.error` models the thrown exception (an engine `SyntaxError` from
`JSON.parse`, or the script's own non-array error). -/
def parseObjectsStringManually (dataString : String) : Except String JSVal :=
  match jsonParse (buildJsonFromObjectStrings dataString) with
  | none => .error "SyntaxError"
  | some parsed =>
    if isArrB parsed then .ok parsed
    else .error "Ожидается массив объектов с данными для карты."

/-- `parseDataString` from `src/map.js` (lines 112-134), for string
input (non-string input returns `null` before this logic).  A strict
parse yielding a non-array throws inside the `try`, so that case also
falls to the repair pass. -/
def parseDataString (dataString : String) : Except String (Option JSVal) :=
  if dataString = "" then .ok none
  else
    let trimmedString := jsTrim dataString
    if trimmedString = "" then .ok none
    else
      match jsonParse trimmedString with
      | some parsed =>
        if isArrB parsed then .ok (some parsed)
        else (parseObjectsStringManually trimmedString).map some
      | none => (parseObjectsStringManually trimmedString).map some

/-- Does `parseDataString` reach the repair pass
(`parseObjectsStringManually`) on this input? -/
def parseDataStringUsedRepair (dataString : String) : Bool :=
  if dataString = "" then false
  else
    let trimmedString := jsTrim dataString
    if trimmedString = "" then false
    else
      match jsonParse trimmedString with
      | some parsed => !isArrB parsed
      | none => true

/-- Modes reachable during lexing: a literal continuation never expects
whitespace characters. -/
def ModeOk : LexMode → Prop
  | .litM exp _ => ∀ e ∈ exp, jsWsB e = false
  | _ => True

/-- `ModeOk` for the mode inside a step result. -/
def stepModeOk : StepRes → Prop
  | .cont m => ModeOk m
  | .emit _ m => ModeOk m
  | .emit2 _ _ m => ModeOk m
  | .fail => True

/-! ### Number(), typeof, and the Schema Validator -/

/-- Digit string in a given radix. -/
def radixVal? (f : Char → Option Nat) (radix : Nat) (l : List Char) : Option Nat :=
  if !l.isEmpty && l.all (fun c => (f c).isSome) then
    some (l.foldl (fun a c => a * radix + (f c).getD 0) 0)
  else none

/-- Octal digit value. -/
def octVal? (c : Char) : Option Nat :=
  if 48 ≤ c.toNat ∧ c.toNat ≤ 55 then some (c.toNat - 48) else none

/-- Binary digit value. -/
def binVal? (c : Char) : Option Nat :=
  if c.toNat = 48 ∨ c.toNat = 49 then some (c.toNat - 48) else none

/-- An unsigned JavaScript `StrDecimalLiteral` without `Infinity`:
`digits [. digits?] exp?` or `. digits exp?`. -/
def parseDecimalCore (l : List Char) : Option ℚ :=
  let ipart := l.takeWhile digitB
  let rest1 := l.dropWhile digitB
  match rest1 with
  | [] => if ipart.isEmpty then none else some (mkRat (digitsToNat ipart) 1)
  | '.' :: t =>
    let fpart := t.takeWhile digitB
    let rest2 := t.dropWhile digitB
    if ipart.isEmpty ∧ fpart.isEmpty then none
    else
      let mant : ℤ := digitsToNat ipart * 10 ^ fpart.length + digitsToNat fpart
      match rest2 with
      | [] => some (mkRat mant (10 ^ fpart.length))
      | e :: t2 =>
        if e.toNat = 101 ∨ e.toNat = 69 then (expValue t2).map (applyExp mant fpart.length)
        else none
  | e :: t2 =>
    if ¬ ipart.isEmpty ∧ (e.toNat = 101 ∨ e.toNat = 69) then
      (expValue t2).map (applyExp (digitsToNat ipart) 0)
    else none

/-- Signed decimal literal. -/
def parseSignedDecimal (l : List Char) : Option ℚ :=
  match l with
  | '+' :: t => parseDecimalCore t
  | '-' :: t => (parseDecimalCore t).map Neg.neg
  | t => parseDecimalCore t

/-- JavaScript `Number(string)`: `none` models `NaN` (and, for the
`Infinity` spellings, a non-finite result — indistinguishable from `NaN`
by every use in these scripts, which only test `Number.isFinite`). -/
def jsNumberOfString (s : String) : Option ℚ :=
  let t := jsTrimList s.data
  match t with
  | [] => some 0
  | c0 :: rest0 =>
    if t = "Infinity".data ∨ t = "+Infinity".data ∨ t = "-Infinity".data then none
    else if c0.toNat = 48 then
      match rest0 with
      | x :: digits =>
        if x.toNat = 120 ∨ x.toNat = 88 then (radixVal? hexVal? 16 digits).map (fun n => mkRat n 1)
        else if x.toNat = 111 ∨ x.toNat = 79 then (radixVal? octVal? 8 digits).map (fun n => mkRat n 1)
        else if x.toNat = 98 ∨ x.toNat = 66 then (radixVal? binVal? 2 digits).map (fun n => mkRat n 1)
        else parseSignedDecimal t
      | [] => parseSignedDecimal t
    else parseSignedDecimal t

/-- JavaScript `Number(value)`: `none` models a non-finite result. -/
def jsToNumber : JSVal → Option ℚ
  | .undefined => none
  | .null => some 0
  | .nan => none
  | .bool b => some (if b then 1 else 0)
  | .num q => some q
  | .str s => jsNumberOfString s
  | .arr xs => jsNumberOfString (jsToString (.arr xs))
  | .obj _ => none

/-- JavaScript `typeof`. -/
def typeofJS : JSVal → String
  | .undefined => "undefined"
  | .null => "object"
  | .nan => "number"
  | .bool _ => "boolean"
  | .num _ => "number"
  | .str _ => "string"
  | .arr _ => "object"
  | .obj _ => "object"

/-- Is the value `undefined`? -/
def isUndefB : JSVal → Bool
  | .undefined => true
  | _ => false

/-- `interactiveAreaSchema.required`. -/
def requiredFields : List String :=
  ["name", "x", "y", "width", "height", "matchField"]

/-- `interactiveAreaSchema.propertyTypes` (in `Object.entries` order). -/
def propertyTypes : List (String × String) :=
  [("name", "string"), ("x", "number"), ("y", "number"), ("width", "number"),
   ("height", "number"), ("matchField", "string"), ("matchValue", "string")]

/-- The missing-required-field message of `validateInteractiveAreasData`
(`index` is 0-based here; the message shows it 1-based). -/
def missingFieldMsg (index : Nat) (field : String) : String :=
  "Область №" ++ toString (index + 1) ++ " не содержит обязательное поле \"" ++ field ++ "\"."

/-- The type-mismatch message of `validateInteractiveAreasData`. -/
def typeMsg (field : String) (index : Nat) (ty : String) : String :=
  "Поле \"" ++ field ++ "\" в области №" ++ toString (index + 1) ++ " должно быть типа " ++ ty ++ "."

/-- JavaScript property assignment `v[field] = x` (silently ignored on
non-objects in sloppy mode). -/
def jsSetField (v : JSVal) (field : String) (x : JSVal) : JSVal :=
  match v with
  | .obj fs => .obj (objInsert fs field x)
  | _ => v

/-- One numeric-field coercion:
`area[field] = Number(String(area[field]).replace(',', '.'))`. -/
def coerceField (area : JSVal) (field : String) : JSVal :=
  if isUndefB (jsIndex area field) then area
  else
    match jsNumberOfString
        (String.mk (replaceFirstCommaDot (jsToString (jsIndex area field)).data)) with
    | some q => jsSetField area field (.num q)
    | none => jsSetField area field .nan

/-- The in-place coercion of `x`, `y`, `width`, `height` (in that order). -/
def coerceNumericFields (area : JSVal) : JSVal :=
  coerceField (coerceField (coerceField (coerceField area "x") "y") "width") "height"

/-- First required field (in schema order) that the area lacks. -/
def firstMissingRequired (area : JSVal) : Option String :=
  requiredFields.find? (fun f => isUndefB (jsIndex area f))

/-- First declared-type violation (in schema order) of the area. -/
def firstTypeError (area : JSVal) (index : Nat) : Option String :=
  (propertyTypes.find?
      (fun p => !isUndefB (jsIndex area p.1) && typeofJS (jsIndex area p.1) != p.2)).map
    (fun p => typeMsg p.1 index p.2)

/-- The per-area body of `validateInteractiveAreasData`'s `forEach`:
required-field checks, then coercion, then type checks. -/
def validateArea (area : JSVal) (index : Nat) : Except String JSVal :=
  match firstMissingRequired area with
  | some f => .error (missingFieldMsg index f)
  | none =>
    let coerced := coerceNumericFields area
    match firstTypeError coerced index with
    | some msg => .error msg
    | none => .ok coerced

/-- The validation loop, carrying the current index. -/
def validateAreasFrom (index : Nat) : List JSVal → Except String (List JSVal)
  | [] => .ok []
  | a :: rest =>
    match validateArea a index with
    | .error e => .error e
    | .ok a2 => (validateAreasFrom (index + 1) rest).map (a2 :: ·)

/-- `validateInteractiveAreasData` from `src/map.js` (lines 190-214):
`.error` models the thrown exception; on success the returned list is the
input with its numeric fields coerced in place. -/
def validateInteractiveAreasData (data : JSVal) : Except String (List JSVal) :=
  match data with
  | .arr areas => validateAreasFrom 0 areas
  | _ => .error "Интерактивные области должны быть массивом объектов."

/-! ### Region Bounds Validation -/

/-- Addition on `ℚ` computed from numerators and denominators (equal to
`+`, stated as `qAdd_eq_add` below; spelled this way so that concrete
instances evaluate inside the kernel). -/
def qAdd (a b : ℚ) : ℚ :=
  mkRat (a.num * b.den + b.num * a.den) (a.den * b.den)

/-- `!areaConfig || typeof areaConfig !== 'object'` — the configs that
pass the first guard of `validateAreaBounds`. -/
def isObjLike (v : JSVal) : Bool :=
  match v with
  | .obj _ => true
  | .arr _ => true
  | _ => false

/-- Messages of `validateAreaBounds`. -/
def boundsCfgMsg : String := "Конфигурация области не задана или имеет неверный формат"

/-- Non-finite field message. -/
def notNumMsg (f : String) : String := "Поле " ++ f ++ " должно быть числом"

/-- Non-positive size message. -/
def notPosMsg (f : String) : String := "Поле " ++ f ++ " должно быть больше 0"

/-- Negative offset message. -/
def notNegMsg (f : String) : String := "Поле " ++ f ++ " не может быть отрицательным"

/-- Right-edge overflow message. -/
def rightEdgeMsg : String := "Область выходит за правую границу карты"

/-- Bottom-edge overflow message. -/
def bottomEdgeMsg : String := "Область выходит за нижнюю границу карты"

/-- The per-field checks of `validateAreaBounds`: non-finite values get
the number message and skip the sign checks (the `return` in the
`forEach`); sizes must be positive, offsets non-negative. -/
def boundsFieldErrors (f : String) (v : Option ℚ) : List String :=
  match v with
  | none => [notNumMsg f]
  | some q =>
    (if (f == "width" || f == "height") && decide (q ≤ 0) then [notPosMsg f] else []) ++
    (if (f == "x" || f == "y") && decide (q < 0) then [notNegMsg f] else [])

/-- `validateAreaBounds` from `src/map.js` (lines 246-286): the pair is
`(isValid, errors)`. -/
def validateAreaBounds (areaConfig : JSVal) (naturalWidth naturalHeight : ℚ) :
    Bool × List String :=
  if !isObjLike areaConfig then (false, [boundsCfgMsg])
  else
    let nx := jsToNumber (jsIndex areaConfig "x")
    let ny := jsToNumber (jsIndex areaConfig "y")
    let nw := jsToNumber (jsIndex areaConfig "width")
    let nh := jsToNumber (jsIndex areaConfig "height")
    let errors :=
      boundsFieldErrors "x" nx ++ boundsFieldErrors "y" ny ++
      boundsFieldErrors "width" nw ++ boundsFieldErrors "height" nh ++
      (match nx, nw with
       | some x, some w => if qAdd x w > naturalWidth then [rightEdgeMsg] else []
       | _, _ => []) ++
      (match ny, nh with
       | some y, some h => if qAdd y h > naturalHeight then [bottomEdgeMsg] else []
       | _, _ => [])
    (errors.isEmpty, errors)

/-- An interactive-area object with every required field present, with
the given value at field `f` (used to quantify over the four numeric
fields). -/
def mkAreaWithField (f : String) (v : JSVal) : JSVal :=
  .obj (objInsert [("name", JSVal.str "n"), ("x", JSVal.num 1), ("y", JSVal.num 1),
    ("width", JSVal.num 1), ("height", JSVal.num 1), ("matchField", JSVal.str "mf")] f v)

/-! ### The consistency checker CLI (`scripts/validateAreas.js`) -/

/-- Is the value `null`? -/
def isNullB : JSVal → Bool
  | .null => true
  | _ => false

/-- `normalize` from `scripts/validateAreas.js` (lines 104-109): trim and
lowercase, with no whitespace collapsing. -/
def cliNormalize (v : JSVal) : String :=
  match v with
  | .undefined => ""
  | .null => ""
  | v => String.mk ((jsTrimList (jsToString v).data).map Char.toLower)

/-- Modelled from the spec: `readFileSync` failure on the areas file (the
real message carries the resolved path and the system error text). -/
def readAreasErrMsg : String := "Unable to read interactive areas file"

/-- Modelled from the spec: `readFileSync` failure on the data file. -/
def readDataErrMsg : String := "Unable to read data file"

/-- Modelled: the engine-specific `SyntaxError` message of `JSON.parse`. -/
def jsonSyntaxErrMsg : String := "SyntaxError"

/-- `parseJsonArray` from `scripts/validateAreas.js` (lines 71-86): the
non-array error is thrown inside the `try`, so it is wrapped like a parse
failure. -/
def parseJsonArrayCli (rawContent : String) (description : String) :
    Except String (List JSVal) :=
  let trimmed := jsTrim rawContent
  if trimmed = "" then .error (description ++ " is empty.")
  else
    match jsonParse trimmed with
    | none => .error ("Failed to parse " ++ description ++ ": " ++ jsonSyntaxErrMsg)
    | some (.arr xs) => .ok xs
    | some _ =>
      .error ("Failed to parse " ++ description ++ ": " ++ description ++
        " must be a JSON array.")

/-- `validateAreasShape` from `scripts/validateAreas.js` (lines 88-102),
with the running 0-based index. -/
def validateAreasShapeFrom (index : Nat) : List JSVal → Except String (List JSVal)
  | [] => .ok []
  | a :: rest =>
    if !isObjLike a then .error ("Area #" ++ toString (index + 1) ++ " must be an object.")
    else
      match firstMissingRequired a with
      | some f =>
        .error ("Area #" ++ toString (index + 1) ++ " is missing required field \"" ++
          f ++ "\".")
      | none => (validateAreasShapeFrom (index + 1) rest).map (a :: ·)

/-- `ensureDataObjects` from `scripts/validateAreas.js` (lines 111-118). -/
def ensureDataObjectsFrom (index : Nat) : List JSVal → Except String (List JSVal)
  | [] => .ok []
  | a :: rest =>
    if !isObjLike a then
      .error ("Data entry #" ++ toString (index + 1) ++ " must be an object.")
    else (ensureDataObjectsFrom (index + 1) rest).map (a :: ·)

/-- One iteration of the warning loop of `main` (lines 131-169): the
warning (area label and message) for this area, if any. -/
def checkAreaWarning (data : List JSVal) (area : JSVal) (index : Nat) :
    Option (String × String) :=
  let rawField := jsIndex area "matchField"
  let rawValue :=
    if !isUndefB (jsIndex area "matchValue") then jsIndex area "matchValue"
    else jsIndex area "name"
  let matchField := match rawField with | .str s => jsTrim s | _ => ""
  let matchValue := match rawValue with | .str s => jsTrim s | _ => ""
  let areaLabel :=
    if (jsIndex area "name").falsy then "#" ++ toString (index + 1)
    else jsToString (jsIndex area "name")
  if matchField = "" then some (areaLabel, "matchField is missing or empty")
  else if matchValue = "" then some (areaLabel, "matchValue is missing or empty")
  else
    let normalizedValue := cliNormalize (JSVal.str matchValue)
    let hasMatch := data.any fun item =>
      let candidate := jsIndex item matchField
      if isUndefB candidate || isNullB candidate then false
      else cliNormalize candidate == normalizedValue
    if hasMatch then none
    else
      some (areaLabel,
        "Value \"" ++ matchValue ++ "\" not found in field \"" ++ matchField ++ "\"")

/-- The warning list of `main`. -/
def cliWarningsFrom (data : List JSVal) (index : Nat) : List JSVal → List (String × String)
  | [] => []
  | a :: rest =>
    match checkAreaWarning data a index with
    | some w => w :: cliWarningsFrom data (index + 1) rest
    | none => cliWarningsFrom data (index + 1) rest

/-- The success line. -/
def successMsg : String :=
  "All matchField/matchValue combinations have matches in the provided data."

/-- The warning header line. -/
def warnHeaderMsg : String :=
  "Some interactive areas do not have corresponding records in the data:"

/-- One warning line: ` - <name>: <reason>`. -/
def fmtWarning (w : String × String) : String :=
  " - " ++ w.1 ++ ": " ++ w.2

/-- `main` from `scripts/validateAreas.js` (lines 120-183), as a function
of the two file contents (`none` models an unreadable file); the result
is the exit code and the output lines (stdout and stderr merged in print
order).  Exit code 1 comes from the `catch`; a run that only prints
warnings falls through to a normal exit 0. -/
def cliMain (areasContent dataContent : Option String) : Nat × List String :=
  match areasContent with
  | none => (1, [readAreasErrMsg])
  | some ac =>
    match dataContent with
    | none => (1, [readDataErrMsg])
    | some dc =>
      match parseJsonArrayCli ac "interactive areas" with
      | .error e => (1, [e])
      | .ok areasRaw =>
        match validateAreasShapeFrom 0 areasRaw with
        | .error e => (1, [e])
        | .ok areas =>
          match parseJsonArrayCli dc "data array" with
          | .error e => (1, [e])
          | .ok dataRaw =>
            match ensureDataObjectsFrom 0 dataRaw with
            | .error e => (1, [e])
            | .ok data =>
              let warnings := cliWarningsFrom data 0 areas
              if warnings.isEmpty then (0, [successMsg])
              else (0, warnHeaderMsg :: warnings.map fmtWarning)

/-! ### Properties of the normalization pipeline -/

/-- A character list whose first character (if any) is not whitespace. -/
def headOk (l : List Char) : Prop :=
  ∀ c, l.head? = some c → jsWsB c = false

/-- A character list whose last character (if any) is not whitespace. -/
def lastOk (l : List Char) : Prop :=
  ∀ c, l.getLast? = some c → jsWsB c = false

theorem toNat_ofNat_valid (n : Nat) (h : n < 55296) : (Char.ofNat n).toNat = n := by
  have hv : n.isValidChar := Or.inl h
  rw [Char.ofNat, dif_pos hv]
  rfl

theorem jsWsB_toLower (c : Char) : jsWsB (Char.toLower c) = jsWsB c := by
  unfold Char.toLower
  by_cases h : c.toNat ≥ 65 ∧ c.toNat ≤ 90
  · rw [if_pos h]
    have h32 : (Char.ofNat (c.toNat + 32)).toNat = c.toNat + 32 :=
      toNat_ofNat_valid _ (by omega)
    have hl : jsWsB (Char.ofNat (c.toNat + 32)) = false := by
      simp only [jsWsB, decide_eq_false_iff_not, jsWs, h32]
      omega
    have hr : jsWsB c = false := by
      simp only [jsWsB, decide_eq_false_iff_not, jsWs]
      omega
    rw [hl, hr]
  · rw [if_neg h]

theorem toLower_idem (c : Char) : Char.toLower (Char.toLower c) = Char.toLower c := by
  unfold Char.toLower
  by_cases h : c.toNat ≥ 65 ∧ c.toNat ≤ 90
  · rw [if_pos h]
    have h32 : (Char.ofNat (c.toNat + 32)).toNat = c.toNat + 32 :=
      toNat_ofNat_valid _ (by omega)
    rw [if_neg (by omega)]
  · rw [if_neg h, if_neg h]

theorem collapseWsAux_cons_not_ws (b : Bool) (c : Char) (t : List Char)
    (h : jsWsB c = false) :
    collapseWsAux b (c :: t) = c :: collapseWsAux false t := by
  simp [collapseWsAux, h]

theorem collapseWsAux_cons_ws_true (c : Char) (t : List Char)
    (h : jsWsB c = true) :
    collapseWsAux true (c :: t) = collapseWsAux true t := by
  simp [collapseWsAux, h]

theorem collapseWsAux_cons_ws_false (c : Char) (t : List Char)
    (h : jsWsB c = true) :
    collapseWsAux false (c :: t) = ' ' :: collapseWsAux true t := by
  simp [collapseWsAux, h]

theorem collapseWsAux_eq_nil (b : Bool) (l : List Char)
    (h : collapseWsAux b l = []) : ∀ c ∈ l, jsWsB c = true := by
  induction l generalizing b with
  | nil => intro c hc; cases hc
  | cons c t ih =>
    intro d hd
    by_cases hw : jsWsB c = true
    · rcases List.mem_cons.mp hd with rfl | hdt
      · exact hw
      · rcases b with _ | _
        · rw [collapseWsAux_cons_ws_false c t hw] at h
          cases h
        · rw [collapseWsAux_cons_ws_true c t hw] at h
          exact ih true h d hdt
    · rw [collapseWsAux_cons_not_ws b c t (by simpa using hw)] at h
      cases h

theorem headOk_collapseWsAux_true (l : List Char) : headOk (collapseWsAux true l) := by
  induction l with
  | nil => intro c hc; cases hc
  | cons c t ih =>
    by_cases hw : jsWsB c = true
    · rw [collapseWsAux_cons_ws_true c t hw]
      exact ih
    · rw [collapseWsAux_cons_not_ws true c t (by simpa using hw)]
      intro d hd
      cases hd
      simpa using hw

theorem headOk_collapseWsAux_false (l : List Char) (h : headOk l) :
    headOk (collapseWsAux false l) := by
  cases l with
  | nil => intro c hc; cases hc
  | cons c t =>
    have hw : jsWsB c = false := h c rfl
    rw [collapseWsAux_cons_not_ws false c t hw]
    intro d hd
    cases hd
    exact hw

theorem collapseWsAux_idem (l : List Char) :
    ∀ b, collapseWsAux false (collapseWsAux b l) = collapseWsAux b l := by
  induction l with
  | nil => intro b; rfl
  | cons c t ih =>
    intro b
    by_cases hw : jsWsB c = true
    · cases b with
      | true =>
        rw [collapseWsAux_cons_ws_true c t hw]
        exact ih true
      | false =>
        rw [collapseWsAux_cons_ws_false c t hw,
            collapseWsAux_cons_ws_false ' ' _ (by decide)]
        congr 1
        rcases hY : collapseWsAux true t with _ | ⟨d, Y⟩
        · rfl
        · have hd : jsWsB d = false := by
            have := headOk_collapseWsAux_true t
            rw [hY] at this
            exact this d rfl
          rw [collapseWsAux_cons_not_ws true d Y hd,
              ← collapseWsAux_cons_not_ws false d Y hd, ← hY, ih true, hY]
    · have hw' : jsWsB c = false := by simpa using hw
      rw [collapseWsAux_cons_not_ws b c t hw',
          collapseWsAux_cons_not_ws false c (collapseWsAux false t) hw', ih false]

theorem collapseWsAux_map_toLower (l : List Char) :
    ∀ b, collapseWsAux b (l.map Char.toLower) = (collapseWsAux b l).map Char.toLower := by
  induction l with
  | nil => intro b; rfl
  | cons c t ih =>
    intro b
    by_cases hw : jsWsB c = true
    · have hw2 : jsWsB c.toLower = true := by rw [jsWsB_toLower]; exact hw
      cases b with
      | true =>
        rw [List.map_cons, collapseWsAux_cons_ws_true _ _ hw2,
            collapseWsAux_cons_ws_true c t hw]
        exact ih true
      | false =>
        rw [List.map_cons, collapseWsAux_cons_ws_false _ _ hw2,
            collapseWsAux_cons_ws_false c t hw, List.map_cons, ih true]
        rfl
    · have hw' : jsWsB c = false := by simpa using hw
      have hw2 : jsWsB c.toLower = false := by rw [jsWsB_toLower]; exact hw'
      rw [List.map_cons, collapseWsAux_cons_not_ws b _ _ hw2,
          collapseWsAux_cons_not_ws b c t hw', List.map_cons, ih false]

theorem getLast?_cons_ne (c : Char) (t : List Char) (h : t ≠ []) :
    (c :: t).getLast? = t.getLast? := by
  cases t with
  | nil => cases h rfl
  | cons d t' => simp

theorem getLast?_some_ne_nil {l : List Char} {c : Char} (h : l.getLast? = some c) :
    l ≠ [] := by
  intro hl
  rw [hl] at h
  cases h

theorem getLast?_exists_mem :
    ∀ (l : List Char), l ≠ [] → ∃ d, l.getLast? = some d ∧ d ∈ l := by
  intro l
  induction l with
  | nil => intro h; cases h rfl
  | cons c t ih =>
    intro _
    by_cases htne : t = []
    · subst htne
      exact ⟨c, by simp, by simp⟩
    · obtain ⟨d, hd, hmem⟩ := ih htne
      exact ⟨d, by rw [getLast?_cons_ne c t htne]; exact hd, List.mem_cons_of_mem c hmem⟩

theorem lastOk_collapseWsAux (l : List Char) (hL : lastOk l) :
    ∀ b, lastOk (collapseWsAux b l) := by
  induction l with
  | nil => intro b c hc; cases hc
  | cons c t ih =>
    intro b
    have hne_of_all : t ≠ [] → ¬ (∀ d ∈ t, jsWsB d = true) := by
      intro hne hall
      obtain ⟨d, hd, hmem⟩ := getLast?_exists_mem t hne
      have : jsWsB d = false := hL d ((getLast?_cons_ne c t hne).symm ▸ hd)
      rw [hall d hmem] at this
      cases this
    by_cases hw : jsWsB c = true
    · have ht : t ≠ [] := by
        intro h
        subst h
        have := hL c rfl
        rw [hw] at this
        cases this
      have hLt : lastOk t := fun d hd => hL d ((getLast?_cons_ne c t ht) ▸ hd)
      have hYne : collapseWsAux true t ≠ [] := by
        intro hY
        exact hne_of_all ht (collapseWsAux_eq_nil true t hY)
      cases b with
      | true =>
        rw [collapseWsAux_cons_ws_true c t hw]
        exact ih hLt true
      | false =>
        rw [collapseWsAux_cons_ws_false c t hw]
        intro d hd
        rw [getLast?_cons_ne ' ' _ hYne] at hd
        exact ih hLt true d hd
    · have hw' : jsWsB c = false := by simpa using hw
      rw [collapseWsAux_cons_not_ws b c t hw']
      cases ht : t with
      | nil =>
        intro d hd
        cases hd
        exact hw'
      | cons a t' =>
        rw [← ht]
        have htne : t ≠ [] := by rw [ht]; intro h; cases h
        have hLt : lastOk t := fun d hd => hL d ((getLast?_cons_ne c t htne) ▸ hd)
        have hYne : collapseWsAux false t ≠ [] := by
          intro hY
          exact hne_of_all htne (collapseWsAux_eq_nil false t hY)
        intro d hd
        rw [getLast?_cons_ne c _ hYne] at hd
        exact ih hLt false d hd

theorem dropWhile_eq_self_of_headOk (l : List Char) (h : headOk l) :
    l.dropWhile jsWsB = l := by
  cases l with
  | nil => rfl
  | cons c t =>
    rw [List.dropWhile_cons, if_neg]
    rw [h c rfl]
    intro hc
    cases hc

theorem headOk_dropWhile (l : List Char) : headOk (l.dropWhile jsWsB) := by
  induction l with
  | nil => intro c hc; cases hc
  | cons c t ih =>
    rw [List.dropWhile_cons]
    by_cases hw : jsWsB c = true
    · rw [if_pos hw]; exact ih
    · rw [if_neg hw]
      intro d hd
      cases hd
      simpa using hw

theorem headOk_dropTrailing (p : Char → Bool) (l : List Char) (h : headOk l) :
    headOk (dropTrailing p l) := by
  have hpre : ∃ t, dropTrailing p l ++ t = l := by
    refine ⟨(l.reverse.takeWhile p).reverse, ?_⟩
    rw [dropTrailing, ← List.reverse_append, List.takeWhile_append_dropWhile,
        List.reverse_reverse]
  obtain ⟨t, ht⟩ := hpre
  cases hd : dropTrailing p l with
  | nil => intro c hc; cases hc
  | cons c w =>
    intro d hdd
    cases hdd
    apply h
    rw [← ht, hd]
    rfl

theorem lastOk_dropTrailing (l : List Char) : lastOk (dropTrailing jsWsB l) := by
  intro c hc
  rw [dropTrailing, List.getLast?_reverse] at hc
  exact headOk_dropWhile l.reverse c hc

theorem headOk_jsTrimList (l : List Char) : headOk (jsTrimList l) :=
  headOk_dropTrailing jsWsB _ (headOk_dropWhile l)

theorem lastOk_jsTrimList (l : List Char) : lastOk (jsTrimList l) :=
  lastOk_dropTrailing _

theorem dropTrailing_eq_self_of_lastOk (l : List Char) (h : lastOk l) :
    dropTrailing jsWsB l = l := by
  rw [dropTrailing, dropWhile_eq_self_of_headOk, List.reverse_reverse]
  intro c hc
  rw [List.head?_reverse] at hc
  exact h c hc

theorem jsTrimList_eq_self (l : List Char) (h1 : headOk l) (h2 : lastOk l) :
    jsTrimList l = l := by
  rw [jsTrimList, dropWhile_eq_self_of_headOk l h1, dropTrailing_eq_self_of_lastOk l h2]

theorem headOk_map_toLower (l : List Char) (h : headOk l) :
    headOk (l.map Char.toLower) := by
  intro c hc
  rw [List.head?_map] at hc
  cases hh : l.head? with
  | none => rw [hh] at hc; cases hc
  | some d =>
    rw [hh] at hc
    cases hc
    rw [jsWsB_toLower]
    exact h d hh

theorem lastOk_map_toLower (l : List Char) (h : lastOk l) :
    lastOk (l.map Char.toLower) := by
  intro c hc
  rw [List.getLast?_map] at hc
  cases hh : l.getLast? with
  | none => rw [hh] at hc; cases hc
  | some d =>
    rw [hh] at hc
    cases hc
    rw [jsWsB_toLower]
    exact h d hh

/-- The normalization pipeline is idempotent on character lists. -/
theorem normList_idem (l : List Char) : normList (normList l) = normList l := by
  have hx1 : headOk (jsTrimList l) := headOk_jsTrimList l
  have hx2 : lastOk (jsTrimList l) := lastOk_jsTrimList l
  have hm1 : headOk (collapseWsAux false (jsTrimList l)) :=
    headOk_collapseWsAux_false _ hx1
  have hm2 : lastOk (collapseWsAux false (jsTrimList l)) :=
    lastOk_collapseWsAux _ hx2 false
  have hn1 : headOk (normList l) := headOk_map_toLower _ hm1
  have hn2 : lastOk (normList l) := lastOk_map_toLower _ hm2
  rw [normList, jsTrimList_eq_self _ hn1 hn2]
  rw [normList, collapseWsAux_map_toLower, collapseWsAux_idem, List.map_map]
  have : Char.toLower ∘ Char.toLower = Char.toLower := by
    funext c
    exact toLower_idem c
  rw [this]

/-- Membership in the Matcher's result, characterized: the record must be
in the input, its field value must be truthy, and the normalized values
must be equal or contain one another. -/
theorem mem_filterDataByObject_iff (dataArray : List JSVal) (matchField : String)
    (matchValue item : JSVal) :
    item ∈ filterDataByObject dataArray matchField matchValue ↔
      item ∈ dataArray ∧ (jsIndex item matchField).falsy = false ∧
        (normalizeStringValue (jsIndex item matchField) = normalizeStringValue matchValue ∨
         jsIncludes (normalizeStringValue (jsIndex item matchField))
           (normalizeStringValue matchValue) = true ∨
         jsIncludes (normalizeStringValue matchValue)
           (normalizeStringValue (jsIndex item matchField)) = true) := by
  simp only [filterDataByObject, List.mem_filter]
  constructor
  · rintro ⟨hmem, hp⟩
    refine ⟨hmem, ?_⟩
    by_cases hf : (jsIndex item matchField).falsy = true
    · rw [if_pos hf] at hp
      cases hp
    · rw [if_neg hf] at hp
      refine ⟨by simpa using hf, ?_⟩
      rcases Bool.or_eq_true_iff.mp hp with h | h
      · rcases Bool.or_eq_true_iff.mp h with h' | h'
        · exact Or.inl (by simpa using h')
        · exact Or.inr (Or.inl h')
      · exact Or.inr (Or.inr h)
  · rintro ⟨hmem, hf, hcond⟩
    refine ⟨hmem, ?_⟩
    rw [if_neg (by rw [hf]; intro h; cases h)]
    rcases hcond with h | h | h
    · exact Bool.or_eq_true_iff.mpr (Or.inl (Bool.or_eq_true_iff.mpr (Or.inl (by simpa using h))))
    · exact Bool.or_eq_true_iff.mpr (Or.inl (Bool.or_eq_true_iff.mpr (Or.inr h)))
    · exact Bool.or_eq_true_iff.mpr (Or.inr h)

/-- C1 (amended): normalization trims, collapses whitespace runs and
lowercases (witnessed on the spec's examples, including the substring
match of "Pier A Extension" against "Pier A"); and a record is in the
match result iff it is in the input, its field value is truthy, and the
normalized field value and normalized target value are equal or one
contains the other. -/
theorem c1_matcher_normalization_and_membership :
    (normalizeStringValue (JSVal.str "  Pier   A ") = "pier a" ∧
     normalizeStringValue (JSVal.str "pier a") = "pier a") ∧
    filterDataByObject [JSVal.obj [("причал", JSVal.str "Pier A Extension")]] "причал"
        (JSVal.str "Pier A") = [JSVal.obj [("причал", JSVal.str "Pier A Extension")]] ∧
    ∀ (dataArray : List JSVal) (matchField : String) (matchValue item : JSVal),
      item ∈ filterDataByObject dataArray matchField matchValue ↔
        item ∈ dataArray ∧ (jsIndex item matchField).falsy = false ∧
          (normalizeStringValue (jsIndex item matchField) = normalizeStringValue matchValue ∨
           jsIncludes (normalizeStringValue (jsIndex item matchField))
             (normalizeStringValue matchValue) = true ∨
           jsIncludes (normalizeStringValue matchValue)
             (normalizeStringValue (jsIndex item matchField)) = true) :=
  ⟨⟨rfl, rfl⟩, rfl, mem_filterDataByObject_iff⟩

/-- C1 (counterexample to the claim as stated): a record whose field value
is the number `0` normalizes to the same form as the target value `"0"`,
yet it is not in the match result, because falsy field values are excluded
before comparison.  So "in the result iff normalized forms are equal or
contain each other" fails. -/
theorem c1_strict_iff_fails :
    normalizeStringValue (JSVal.num 0) = normalizeStringValue (JSVal.str "0") ∧
    filterDataByObject [JSVal.obj [("причал", JSVal.num 0)]] "причал" (JSVal.str "0") = [] :=
  ⟨rfl, rfl⟩

/-- C8: records whose value at the target field is falsy (absent, null,
NaN, `false`, `0` or the empty string) are excluded from the match
result, and the result is a sublist of the input (input order is
preserved, no reordering and no duplication). -/
theorem c8_falsy_excluded_order_preserved :
    (∀ (dataArray : List JSVal) (matchField : String) (matchValue item : JSVal),
        item ∈ filterDataByObject dataArray matchField matchValue →
        (jsIndex item matchField).falsy = false) ∧
    (∀ (dataArray : List JSVal) (matchField : String) (matchValue : JSVal),
        List.Sublist (filterDataByObject dataArray matchField matchValue) dataArray) ∧
    filterDataByObject
      [JSVal.obj [("f", JSVal.str "")], JSVal.obj [("f", JSVal.num 0)],
       JSVal.obj [("f", JSVal.null)], JSVal.obj []] "f" (JSVal.str "") = [] := by
  refine ⟨?_, ?_, rfl⟩
  · intro dataArray matchField matchValue item hmem
    exact ((mem_filterDataByObject_iff dataArray matchField matchValue item).mp hmem).2.1
  · intro dataArray matchField matchValue
    exact List.filter_sublist dataArray

/-- C8 witness: applying the exclusion direction at a concrete input. -/
theorem c8_witness :
    (jsIndex (JSVal.obj [("f", JSVal.str "x")]) "f").falsy = false :=
  c8_falsy_excluded_order_preserved.1 [JSVal.obj [("f", JSVal.str "x")]] "f"
    (JSVal.str "x") (JSVal.obj [("f", JSVal.str "x")])
    (by rw [show filterDataByObject [JSVal.obj [("f", JSVal.str "x")]] "f" (JSVal.str "x") =
          [JSVal.obj [("f", JSVal.str "x")]] from rfl]
        exact List.mem_singleton.mpr rfl)

theorem normalize_str_mk_normList (l : List Char) :
    normalizeStringValue (JSVal.str (String.mk (normList l))) = String.mk (normList l) := by
  show String.mk (normList (normList l)) = String.mk (normList l)
  rw [normList_idem]

/-- C10: normalization is idempotent, and pre-normalizing the match value
(as the popup path does before calling the Matcher) selects exactly the
same records as passing the raw value. -/
theorem c10_normalize_idempotent :
    (∀ v : JSVal, normalizeStringValue (JSVal.str (normalizeStringValue v)) =
        normalizeStringValue v) ∧
    ∀ (dataArray : List JSVal) (matchField : String) (v : JSVal),
      filterDataByObject dataArray matchField (JSVal.str (normalizeStringValue v)) =
        filterDataByObject dataArray matchField v := by
  have hid : ∀ v : JSVal, normalizeStringValue (JSVal.str (normalizeStringValue v)) =
      normalizeStringValue v := by
    intro v
    cases v with
    | undefined => rfl
    | null => rfl
    | nan => exact normalize_str_mk_normList _
    | bool b => exact normalize_str_mk_normList _
    | num q => exact normalize_str_mk_normList _
    | str s => exact normalize_str_mk_normList _
    | arr xs => exact normalize_str_mk_normList _
    | obj fs => exact normalize_str_mk_normList _
  refine ⟨hid, ?_⟩
  intro dataArray matchField v
  simp only [filterDataByObject]
  rw [hid v]

/-! ### Whitespace trimming does not change a successful tokenization -/

theorem dropTrailing_eq_nil_of_all (p : Char → Bool) (l : List Char)
    (h : ∀ c ∈ l, p c = true) : dropTrailing p l = [] := by
  have hrev : l.reverse.dropWhile p = [] :=
    List.dropWhile_eq_nil_iff.mpr (fun x hx => h x (List.mem_reverse.mp hx))
  rw [dropTrailing, hrev, List.reverse_nil]

theorem dropTrailing_cons (p : Char → Bool) (c : Char) (t : List Char) :
    dropTrailing p (c :: t) = if p c && t.all p then [] else c :: dropTrailing p t := by
  by_cases hall : ∀ x ∈ t, p x = true
  · have hrev : t.reverse.dropWhile p = [] :=
      List.dropWhile_eq_nil_iff.mpr (fun x hx => hall x (List.mem_reverse.mp hx))
    have htail : dropTrailing p t = [] := dropTrailing_eq_nil_of_all p t hall
    by_cases hc : p c = true
    · rw [if_pos (by rw [hc, List.all_eq_true.mpr hall]; rfl)]
      rw [dropTrailing, List.reverse_cons, List.dropWhile_append, hrev]
      simp [List.dropWhile_cons, hc]
    · rw [if_neg (by rw [List.all_eq_true.mpr hall]; simpa using hc)]
      rw [dropTrailing, List.reverse_cons, List.dropWhile_append, hrev]
      simp [List.dropWhile_cons, hc, htail]
  · have hne : ¬ t.reverse.dropWhile p = [] := by
      intro hnil
      exact hall fun x hx =>
        List.dropWhile_eq_nil_iff.mp hnil x (List.mem_reverse.mpr hx)
    rw [if_neg (by simp only [Bool.and_eq_true, List.all_eq_true]; tauto)]
    rw [dropTrailing, List.reverse_cons, List.dropWhile_append]
    rw [if_neg (by simpa using hne)]
    rw [List.reverse_append, dropTrailing]
    rfl

theorem jsWs_of_jsWsB {c : Char} (h : jsWsB c = true) : jsWs c.toNat :=
  of_decide_eq_true h

theorem ws_topDispatch (c : Char) (h : jsWsB c = true) :
    (jsonWsB c = true ∧ topDispatch c = TopStep.ws) ∨
    (jsonWsB c = false ∧ topDispatch c = TopStep.bad) := by
  have hws := jsWs_of_jsWsB h
  unfold jsWs at hws
  by_cases hj : jsonWsB c = true
  · exact Or.inl ⟨hj, by unfold topDispatch; rw [if_pos hj]⟩
  · have hj2 : jsonWsB c = false := by simpa using hj
    refine Or.inr ⟨hj2, ?_⟩
    have hjp : ¬ (c.toNat = 32 ∨ c.toNat = 9 ∨ c.toNat = 10 ∨ c.toNat = 13) := by
      intro hp
      rw [show jsonWsB c = true from decide_eq_true hp] at hj2
      cases hj2
    unfold topDispatch
    rw [if_neg (by rw [hj2]; intro hx; cases hx)]
    repeat rw [if_neg (by omega)]

theorem ws_not_numTokChar (c : Char) (h : jsWsB c = true) : numTokChar c = false := by
  have hws := jsWs_of_jsWsB h
  unfold jsWs at hws
  exact decide_eq_false (by omega)

theorem ws_escChar (c : Char) (h : jsWsB c = true) : escChar? c = none := by
  have hws := jsWs_of_jsWsB h
  unfold jsWs at hws
  unfold escChar?
  repeat rw [if_neg (by omega)]

theorem ws_hexVal (c : Char) (h : jsWsB c = true) : hexVal? c = none := by
  have hws := jsWs_of_jsWsB h
  unfold jsWs at hws
  unfold hexVal?
  repeat rw [if_neg (by omega)]

theorem topDispatch_enter_modeOk (c : Char) (m : LexMode)
    (h : topDispatch c = TopStep.enter m) : ModeOk m := by
  unfold topDispatch at h
  by_cases h1 : jsonWsB c = true
  · rw [if_pos h1] at h; cases h
  rw [if_neg h1] at h
  by_cases h2 : c.toNat = 123
  · rw [if_pos h2] at h; cases h
  rw [if_neg h2] at h
  by_cases h3 : c.toNat = 125
  · rw [if_pos h3] at h; cases h
  rw [if_neg h3] at h
  by_cases h4 : c.toNat = 91
  · rw [if_pos h4] at h; cases h
  rw [if_neg h4] at h
  by_cases h5 : c.toNat = 93
  · rw [if_pos h5] at h; cases h
  rw [if_neg h5] at h
  by_cases h6 : c.toNat = 58
  · rw [if_pos h6] at h; cases h
  rw [if_neg h6] at h
  by_cases h7 : c.toNat = 44
  · rw [if_pos h7] at h; cases h
  rw [if_neg h7] at h
  by_cases h8 : c.toNat = 34
  · rw [if_pos h8] at h; cases h; trivial
  rw [if_neg h8] at h
  by_cases h9 : c.toNat = 116
  · rw [if_pos h9] at h; cases h
    exact (by decide : ∀ e ∈ (['r', 'u', 'e'] : List Char), jsWsB e = false)
  rw [if_neg h9] at h
  by_cases h10 : c.toNat = 102
  · rw [if_pos h10] at h; cases h
    exact (by decide : ∀ e ∈ (['a', 'l', 's', 'e'] : List Char), jsWsB e = false)
  rw [if_neg h10] at h
  by_cases h11 : c.toNat = 110
  · rw [if_pos h11] at h; cases h
    exact (by decide : ∀ e ∈ (['u', 'l', 'l'] : List Char), jsWsB e = false)
  rw [if_neg h11] at h
  by_cases h12 : (48 ≤ c.toNat ∧ c.toNat ≤ 57) ∨ c.toNat = 45
  · rw [if_pos h12] at h; cases h; trivial
  rw [if_neg h12] at h
  cases h

theorem lexStep_top (c : Char) :
    lexStep .top c =
      (match topDispatch c with
       | .ws => .cont .top
       | .sym t => .emit t .top
       | .enter m => .cont m
       | .bad => .fail) := rfl

theorem lexStep_strM (acc : List Char) (c : Char) :
    lexStep (.strM acc) c =
      (if c.toNat = 34 then .emit (JTok.tstr (String.mk acc.reverse)) .top
       else if c.toNat = 92 then .cont (.escM acc)
       else if c.toNat < 32 then .fail
       else .cont (.strM (c :: acc))) := rfl

theorem lexStep_escM (acc : List Char) (c : Char) :
    lexStep (.escM acc) c =
      (if c.toNat = 117 then .cont (.uniM acc [])
       else
         match escChar? c with
         | some d => .cont (.strM (d :: acc))
         | none => .fail) := rfl

theorem lexStep_uniM (acc pend : List Char) (c : Char) :
    lexStep (.uniM acc pend) c =
      (match hexVal? c with
       | none => .fail
       | some _ =>
         if pend.length = 3 then .cont (.strM (Char.ofNat (hexListVal (pend ++ [c])) :: acc))
         else .cont (.uniM acc (pend ++ [c]))) := rfl

theorem lexStep_numM (acc : List Char) (c : Char) :
    lexStep (.numM acc) c =
      (if numTokChar c then .cont (.numM (acc ++ [c]))
       else
         match numLit? acc with
         | none => .fail
         | some q =>
           match topDispatch c with
           | .ws => .emit (JTok.tnum q) .top
           | .sym t => .emit2 (JTok.tnum q) t .top
           | .enter m => .emit (JTok.tnum q) m
           | .bad => .fail) := rfl

theorem lexStep_litM_nil (tok : JTok) (c : Char) :
    lexStep (.litM [] tok) c = .fail := rfl

theorem lexStep_litM_cons (e : Char) (exp2 : List Char) (tok : JTok) (c : Char) :
    lexStep (.litM (e :: exp2) tok) c =
      (if c = e then
         if exp2.isEmpty then .emit tok .top
         else .cont (.litM exp2 tok)
       else .fail) := rfl

theorem modeOk_lexStep (m : LexMode) (c : Char) (hm : ModeOk m) :
    stepModeOk (lexStep m c) := by
  cases m with
  | top =>
    rw [lexStep_top]
    cases htd : topDispatch c with
    | ws => trivial
    | sym t => trivial
    | enter m2 => exact topDispatch_enter_modeOk c m2 htd
    | bad => trivial
  | strM acc =>
    rw [lexStep_strM]
    split_ifs <;> trivial
  | escM acc =>
    rw [lexStep_escM]
    split_ifs
    · trivial
    · cases hesc : escChar? c <;> trivial
  | uniM acc pend =>
    rw [lexStep_uniM]
    cases hx : hexVal? c
    · trivial
    · split_ifs <;> trivial
  | numM acc =>
    rw [lexStep_numM]
    split_ifs
    · trivial
    · cases hq : numLit? acc
      · trivial
      · cases htd : topDispatch c with
        | ws => trivial
        | sym t => trivial
        | enter m2 => exact topDispatch_enter_modeOk c m2 htd
        | bad => trivial
  | litM exp tok =>
    cases exp with
    | nil => rw [lexStep_litM_nil]; trivial
    | cons e exp2 =>
      rw [lexStep_litM_cons]
      split_ifs <;> try trivial
      exact fun x hx => hm x (List.mem_cons_of_mem e hx)

theorem lexChars_cons (m : LexMode) (c : Char) (rest : List Char) :
    lexChars m (c :: rest) =
      (match lexStep m c with
       | .cont m2 => lexChars m2 rest
       | .emit t m2 => (lexChars m2 rest).map (t :: ·)
       | .emit2 t1 t2 m2 => (lexChars m2 rest).map (fun ts => t1 :: t2 :: ts)
       | .fail => none) := rfl

theorem lexChars_cons_cont {m m2 : LexMode} {c : Char} (rest : List Char)
    (h : lexStep m c = .cont m2) :
    lexChars m (c :: rest) = lexChars m2 rest := by
  rw [lexChars_cons, h]

theorem lexChars_cons_emit {m m2 : LexMode} {c : Char} {t : JTok} (rest : List Char)
    (h : lexStep m c = .emit t m2) :
    lexChars m (c :: rest) = (lexChars m2 rest).map (t :: ·) := by
  rw [lexChars_cons, h]

theorem lexChars_cons_emit2 {m m2 : LexMode} {c : Char} {t1 t2 : JTok} (rest : List Char)
    (h : lexStep m c = .emit2 t1 t2 m2) :
    lexChars m (c :: rest) = (lexChars m2 rest).map (fun ts => t1 :: t2 :: ts) := by
  rw [lexChars_cons, h]

theorem lexChars_cons_fail {m : LexMode} {c : Char} (rest : List Char)
    (h : lexStep m c = .fail) :
    lexChars m (c :: rest) = none := by
  rw [lexChars_cons, h]

theorem lexChars_all_ws (l : List Char) :
    (∀ c ∈ l, jsWsB c = true) →
    ∀ (m : LexMode), ModeOk m → ∀ T, lexChars m l = some T → lexFinish m = some T := by
  induction l with
  | nil =>
    intro _ m _ T h
    exact h
  | cons c rest ih =>
    intro hall m hm T h
    have hw : jsWsB c = true := hall c (List.mem_cons_self c rest)
    have hallr : ∀ x ∈ rest, jsWsB x = true := fun x hx => hall x (List.mem_cons_of_mem c hx)
    have hws := jsWs_of_jsWsB hw
    unfold jsWs at hws
    cases m with
    | top =>
      rcases ws_topDispatch c hw with ⟨hj, htd⟩ | ⟨hj, htd⟩
      · have hstep : lexStep .top c = .cont .top := by rw [lexStep_top, htd]
        rw [lexChars_cons_cont rest hstep] at h
        exact ih hallr .top trivial T h
      · have hstep : lexStep .top c = .fail := by rw [lexStep_top, htd]
        rw [lexChars_cons_fail rest hstep] at h
        cases h
    | strM acc =>
      by_cases h32 : c.toNat < 32
      · have hstep : lexStep (.strM acc) c = .fail := by
          rw [lexStep_strM, if_neg (by omega), if_neg (by omega), if_pos h32]
        rw [lexChars_cons_fail rest hstep] at h
        cases h
      · have hstep : lexStep (.strM acc) c = .cont (.strM (c :: acc)) := by
          rw [lexStep_strM, if_neg (by omega), if_neg (by omega), if_neg h32]
        rw [lexChars_cons_cont rest hstep] at h
        have hfin := ih hallr (.strM (c :: acc)) trivial T h
        cases hfin
    | escM acc =>
      have hstep : lexStep (.escM acc) c = .fail := by
        rw [lexStep_escM, if_neg (by omega), ws_escChar c hw]
      rw [lexChars_cons_fail rest hstep] at h
      cases h
    | uniM acc pend =>
      have hstep : lexStep (.uniM acc pend) c = .fail := by
        rw [lexStep_uniM, ws_hexVal c hw]
      rw [lexChars_cons_fail rest hstep] at h
      cases h
    | numM acc =>
      have hnum : numTokChar c = false := ws_not_numTokChar c hw
      cases hq : numLit? acc with
      | none =>
        have hstep : lexStep (.numM acc) c = .fail := by
          rw [lexStep_numM, if_neg (by rw [hnum]; intro hx; cases hx), hq]
        rw [lexChars_cons_fail rest hstep] at h
        cases h
      | some q =>
        rcases ws_topDispatch c hw with ⟨hj, htd⟩ | ⟨hj, htd⟩
        · have hstep : lexStep (.numM acc) c = .emit (JTok.tnum q) .top := by
            rw [lexStep_numM, if_neg (by rw [hnum]; intro hx; cases hx), hq, htd]
          rw [lexChars_cons_emit rest hstep] at h
          cases hrec : lexChars .top rest with
          | none =>
            rw [hrec] at h
            cases h
          | some T2 =>
            rw [hrec] at h
            have hT2 : some ([] : List JTok) = some T2 := ih hallr .top trivial T2 hrec
            injection hT2 with hT2e
            subst hT2e
            have h2 : some [JTok.tnum q] = some T := h
            injection h2 with h2e
            subst h2e
            show Option.map (fun q => [JTok.tnum q]) (numLit? acc) = some [JTok.tnum q]
            rw [hq]
            rfl
        · have hstep : lexStep (.numM acc) c = .fail := by
            rw [lexStep_numM, if_neg (by rw [hnum]; intro hx; cases hx), hq, htd]
          rw [lexChars_cons_fail rest hstep] at h
          cases h
    | litM exp tok =>
      cases exp with
      | nil =>
        rw [lexChars_cons_fail rest (lexStep_litM_nil tok c)] at h
        cases h
      | cons e exp2 =>
        have he : jsWsB e = false := hm e (List.mem_cons_self e exp2)
        have hne : ¬ c = e := by
          intro hce
          rw [hce, he] at hw
          cases hw
        have hstep : lexStep (.litM (e :: exp2) tok) c = .fail := by
          rw [lexStep_litM_cons, if_neg hne]
        rw [lexChars_cons_fail rest hstep] at h
        cases h

theorem lexChars_dropTrailing (l : List Char) :
    ∀ (m : LexMode), ModeOk m → ∀ T, lexChars m l = some T →
      lexChars m (dropTrailing jsWsB l) = some T := by
  induction l with
  | nil =>
    intro m _ T h
    exact h
  | cons c rest ih =>
    intro m hm T h
    rw [dropTrailing_cons]
    by_cases hcond : (jsWsB c && rest.all jsWsB) = true
    · rw [if_pos hcond]
      rcases Bool.and_eq_true_iff.mp hcond with ⟨h1, h2⟩
      have hall : ∀ x ∈ c :: rest, jsWsB x = true := by
        intro x hx
        rcases List.mem_cons.mp hx with rfl | hx2
        · exact h1
        · exact List.all_eq_true.mp h2 x hx2
      exact lexChars_all_ws (c :: rest) hall m hm T h
    · rw [if_neg hcond]
      have hmodes := modeOk_lexStep m c hm
      cases hstep : lexStep m c with
      | cont m2 =>
        rw [hstep] at hmodes
        rw [lexChars_cons_cont rest hstep] at h
        rw [lexChars_cons_cont (dropTrailing jsWsB rest) hstep]
        exact ih m2 hmodes T h
      | emit t m2 =>
        rw [hstep] at hmodes
        rw [lexChars_cons_emit rest hstep] at h
        rw [lexChars_cons_emit (dropTrailing jsWsB rest) hstep]
        cases hrec : lexChars m2 rest with
        | none =>
          rw [hrec] at h
          cases h
        | some T2 =>
          rw [hrec] at h
          rw [ih m2 hmodes T2 hrec]
          exact h
      | emit2 t1 t2 m2 =>
        rw [hstep] at hmodes
        rw [lexChars_cons_emit2 rest hstep] at h
        rw [lexChars_cons_emit2 (dropTrailing jsWsB rest) hstep]
        cases hrec : lexChars m2 rest with
        | none =>
          rw [hrec] at h
          cases h
        | some T2 =>
          rw [hrec] at h
          rw [ih m2 hmodes T2 hrec]
          exact h
      | fail =>
        rw [lexChars_cons_fail rest hstep] at h
        cases h

theorem lex_dropWhile_ws (l : List Char) :
    ∀ T, lex l = some T → lex (l.dropWhile jsWsB) = some T := by
  induction l with
  | nil =>
    intro T h
    exact h
  | cons c rest ih =>
    intro T h
    unfold lex at h ⊢
    by_cases hw : jsWsB c = true
    · rw [List.dropWhile_cons, if_pos hw]
      rcases ws_topDispatch c hw with ⟨hj, htd⟩ | ⟨hj, htd⟩
      · have hstep : lexStep .top c = .cont .top := by rw [lexStep_top, htd]
        rw [lexChars_cons_cont rest hstep] at h
        exact ih T h
      · have hstep : lexStep .top c = .fail := by rw [lexStep_top, htd]
        rw [lexChars_cons_fail rest hstep] at h
        cases h
    · rw [List.dropWhile_cons, if_neg hw]
      exact h

theorem lex_jsTrimList (l : List Char) (T : List JTok) (h : lex l = some T) :
    lex (jsTrimList l) = some T := by
  unfold jsTrimList
  exact lexChars_dropTrailing (l.dropWhile jsWsB) .top trivial T (lex_dropWhile_ws l T h)

/-- Trimming a string does not change a successful `JSON.parse`. -/
theorem jsonParse_jsTrim (s : String) (v : JSVal) (h : jsonParse s = some v) :
    jsonParse (jsTrim s) = some v := by
  unfold jsonParse at h ⊢
  cases hl : lex s.data with
  | none =>
    rw [hl] at h
    cases h
  | some toks =>
    rw [hl] at h
    rw [show (jsTrim s).data = jsTrimList s.data from rfl,
        lex_jsTrimList s.data toks hl]
    exact h

/-- C4: on input that strict `JSON.parse` accepts as an array (of
objects), the Tolerant Parser returns exactly the strict parse and never
reaches the repair pass. -/
theorem c4_fast_path_returns_strict_parse (s : String) (xs : List JSVal)
    (hparse : jsonParse s = some (JSVal.arr xs))
    (hobjs : ∀ x ∈ xs, isObjB x = true) :
    parseDataString s = .ok (some (JSVal.arr xs)) ∧
    parseDataStringUsedRepair s = false := by
  have hempty : jsonParse "" = none := rfl
  have hsne : ¬ s = "" := by
    intro hs
    rw [hs, hempty] at hparse
    cases hparse
  have htrim : jsonParse (jsTrim s) = some (JSVal.arr xs) := jsonParse_jsTrim s _ hparse
  have htne : ¬ jsTrim s = "" := by
    intro ht
    rw [ht, hempty] at htrim
    cases htrim
  constructor
  · simp only [parseDataString]
    rw [if_neg hsne, if_neg htne, htrim]
    rfl
  · simp only [parseDataStringUsedRepair]
    rw [if_neg hsne, if_neg htne, htrim]
    rfl

/-- C4 witness: a concrete strictly-valid array of objects takes the fast
path unchanged. -/
theorem c4_witness :
    parseDataString "[\x7b\x7d]" = .ok (some (JSVal.arr [JSVal.obj []])) ∧
    parseDataStringUsedRepair "[\x7b\x7d]" = false :=
  c4_fast_path_returns_strict_parse "[\x7b\x7d]" [JSVal.obj []] (by rfl)
    (by
      intro x hx
      rw [List.mem_singleton] at hx
      subst hx
      rfl)

/-- C2 (showing the code bug): on the spec's example
`[\x7bname: Pier A, x: 10, y: 5,5\x7d]` the repair pass quotes the key
and the string value and fixes `x`, but leaves `5,5` unrepaired — the
value-capture class `[^,"\x7d\x7b\[\]]` excludes commas, so the
comma-decimal branch of the numeric rewrite is unreachable — and the
subsequent strict parse of the rebuilt text throws instead of producing
`y = 5.5`.  With a dot decimal the same input parses fine, which isolates
the divergence to the comma. -/
theorem c2_comma_decimal_unrepaired :
    buildJsonFromObjectStrings "[\x7bname: Pier A, x: 10, y: 5,5\x7d]" =
      "[\x7b\"name\": \"Pier A\", \"x\": 10, \"y\": 5,5\x7d]" ∧
    parseObjectsStringManually "[\x7bname: Pier A, x: 10, y: 5,5\x7d]" =
      Except.error "SyntaxError" ∧
    parseDataString "[\x7bname: Pier A, x: 10, y: 5,5\x7d]" = Except.error "SyntaxError" ∧
    parseObjectsStringManually "[\x7bname: Pier A, x: 10, y: 5.5\x7d]" =
      Except.ok (JSVal.arr [JSVal.obj [("name", JSVal.str "Pier A"),
        ("x", JSVal.num (mkRat 10 1)), ("y", JSVal.num (mkRat 11 2))]]) :=
  ⟨rfl, rfl, rfl, rfl⟩

/-! ### Schema Validator (C5, C9) and Bounds Validation (C6) -/

theorem string_data_append (s t : String) : (s ++ t).data = s.data ++ t.data := by
  cases s
  cases t
  rfl

theorem missingFieldMsg_head (i : Nat) (f : String) :
    (missingFieldMsg i f).data.head? = some 'О' := by
  unfold missingFieldMsg
  rw [string_data_append]
  rfl

theorem validateAreasFrom_append_error (pre : List JSVal) :
    ∀ (idx : Nat) (area : JSVal) (post : List JSVal) (f : String),
      (∀ j a, pre.get? j = some a → ∃ a2, validateArea a (idx + j) = .ok a2) →
      firstMissingRequired area = some f →
      validateAreasFrom idx (pre ++ area :: post) =
        .error (missingFieldMsg (idx + pre.length) f) := by
  induction pre with
  | nil =>
    intro idx area post f _ hmiss
    show (match validateArea area idx with
          | .error e => .error e
          | .ok a2 => (validateAreasFrom (idx + 1) post).map (a2 :: ·)) =
      Except.error (missingFieldMsg (idx + 0) f)
    have hva : validateArea area idx = .error (missingFieldMsg idx f) := by
      unfold validateArea
      rw [hmiss]
    rw [hva]
    rfl
  | cons a pre2 ih =>
    intro idx area post f hpre hmiss
    obtain ⟨a2, hok⟩ := hpre 0 a rfl
    have hok' : validateArea a idx = .ok a2 := by
      rw [show idx + 0 = idx from rfl] at hok
      exact hok
    show (match validateArea a idx with
          | .error e => .error e
          | .ok a2 => (validateAreasFrom (idx + 1) (pre2 ++ area :: post)).map (a2 :: ·)) =
      Except.error (missingFieldMsg (idx + (a :: pre2).length) f)
    rw [hok']
    have hpre2 : ∀ j b, pre2.get? j = some b → ∃ b2, validateArea b (idx + 1 + j) = .ok b2 := by
      intro j b hb
      obtain ⟨b2, hb2⟩ := hpre (j + 1) b (by simpa using hb)
      exact ⟨b2, by rw [show idx + 1 + j = idx + (j + 1) by omega]; exact hb2⟩
    rw [ih (idx + 1) area post f hpre2 hmiss]
    have : idx + 1 + pre2.length = idx + (a :: pre2).length := by
      simp [List.length_cons]
      omega
    rw [this]
    rfl

/-- C5 (amended): if every area before the offending one passes the
required-field and type checks, and the area at index `pre.length` lacks
a required field, the Schema Validator fails with the message naming that
(first missing) field and the 1-based index of the offending area. -/
theorem c5_missing_required_field (pre : List JSVal) (area : JSVal) (post : List JSVal)
    (f : String)
    (hpre : ∀ j a, pre.get? j = some a → ∃ a2, validateArea a j = .ok a2)
    (hmiss : firstMissingRequired area = some f) :
    validateInteractiveAreasData (JSVal.arr (pre ++ area :: post)) =
      .error (missingFieldMsg pre.length f) ∧
    missingFieldMsg pre.length f =
      "Область №" ++ toString (pre.length + 1) ++ " не содержит обязательное поле \"" ++
        f ++ "\"." := by
  constructor
  · show validateAreasFrom 0 (pre ++ area :: post) = _
    rw [validateAreasFrom_append_error pre 0 area post f (by simpa using hpre) hmiss]
    rw [show (0 : Nat) + pre.length = pre.length from by omega]
  · rfl

/-- C5 witness: a single area missing `matchField` (the spec's example)
fails naming `matchField` and index 1. -/
theorem c5_witness :
    validateInteractiveAreasData (JSVal.arr [JSVal.obj
      [("name", JSVal.str "A"), ("x", JSVal.num 1), ("y", JSVal.num 1),
       ("width", JSVal.num 2), ("height", JSVal.num 2)]]) =
      .error (missingFieldMsg 0 "matchField") ∧
    missingFieldMsg 0 "matchField" =
      "Область №" ++ toString (0 + 1) ++ " не содержит обязательное поле \"" ++
        "matchField" ++ "\"." := by
  have h := c5_missing_required_field [] (JSVal.obj
      [("name", JSVal.str "A"), ("x", JSVal.num 1), ("y", JSVal.num 1),
       ("width", JSVal.num 2), ("height", JSVal.num 2)]) [] "matchField"
    (by intro j a ha; cases j <;> cases ha) rfl
  exact ⟨h.1, by rfl⟩

/-- C5 (counterexample to the claim as stated): the first area has all
required fields but a numeric `name`, the second area lacks `matchField`;
the validator reports the type error of area 1, an error that names no
missing field (every missing-field message starts with a different
character). -/
theorem c5_strict_fails :
    validateInteractiveAreasData (JSVal.arr
      [JSVal.obj [("name", JSVal.num 5), ("x", JSVal.num 1), ("y", JSVal.num 1),
                  ("width", JSVal.num 1), ("height", JSVal.num 1),
                  ("matchField", JSVal.str "f")],
       JSVal.obj [("name", JSVal.str "B"), ("x", JSVal.num 1), ("y", JSVal.num 1),
                  ("width", JSVal.num 1), ("height", JSVal.num 1)]]) =
      .error (typeMsg "name" 0 "string") ∧
    isUndefB (jsIndex (JSVal.obj [("name", JSVal.str "B"), ("x", JSVal.num 1),
      ("y", JSVal.num 1), ("width", JSVal.num 1), ("height", JSVal.num 1)]) "matchField") =
      true ∧
    ∀ (i : Nat) (f : String), typeMsg "name" 0 "string" ≠ missingFieldMsg i f := by
  refine ⟨by rfl, by rfl, ?_⟩
  intro i f h
  have h2 : (typeMsg "name" 0 "string").data.head? = (missingFieldMsg i f).data.head? := by
    rw [h]
  rw [missingFieldMsg_head] at h2
  have h3 : (typeMsg "name" 0 "string").data.head? = some 'П' := by rfl
  rw [h3] at h2
  injection h2 with h4
  exact absurd h4 (by decide)

theorem qAdd_eq_add (a b : ℚ) : qAdd a b = a + b :=
  (Rat.add_def' a b).symm

theorem bfe_x (q : ℚ) :
    boundsFieldErrors "x" (some q) = if q < 0 then [notNegMsg "x"] else [] := by
  unfold boundsFieldErrors
  rw [show (("x" == "width") || ("x" == "height")) = false from rfl,
      show (("x" == "x") || ("x" == "y")) = true from rfl]
  by_cases h : q < 0
  · simp [h]
  · simp [h]

theorem bfe_y (q : ℚ) :
    boundsFieldErrors "y" (some q) = if q < 0 then [notNegMsg "y"] else [] := by
  unfold boundsFieldErrors
  rw [show (("y" == "width") || ("y" == "height")) = false from rfl,
      show (("y" == "x") || ("y" == "y")) = true from rfl]
  by_cases h : q < 0
  · simp [h]
  · simp [h]

theorem bfe_width (q : ℚ) :
    boundsFieldErrors "width" (some q) = if q ≤ 0 then [notPosMsg "width"] else [] := by
  unfold boundsFieldErrors
  rw [show (("width" == "width") || ("width" == "height")) = true from rfl,
      show (("width" == "x") || ("width" == "y")) = false from rfl]
  by_cases h : q ≤ 0
  · simp [h]
  · simp [h]

theorem bfe_height (q : ℚ) :
    boundsFieldErrors "height" (some q) = if q ≤ 0 then [notPosMsg "height"] else [] := by
  unfold boundsFieldErrors
  rw [show (("height" == "width") || ("height" == "height")) = true from rfl,
      show (("height" == "x") || ("height" == "y")) = false from rfl]
  by_cases h : q ≤ 0
  · simp [h]
  · simp [h]

/-- C6: the spec's concrete region against a 90x200 image yields exactly
the right-edge violation; and in general, for a region with numeric
fields, the violation list is exactly: negative `x`, negative `y`,
non-positive `width`, non-positive `height`, right-edge overflow
(`x + width > naturalWidth`), bottom-edge overflow
(`y + height > naturalHeight`), in that order; a `NaN` field is reported
as non-numeric. -/
theorem c6_bounds_validation :
    validateAreaBounds (JSVal.obj [("x", JSVal.num 10), ("y", JSVal.num 10),
      ("width", JSVal.num 100), ("height", JSVal.num 100)]) 90 200 =
      (false, ["Область выходит за правую границу карты"]) ∧
    (∀ x y w h W H : ℚ,
      validateAreaBounds (JSVal.obj [("x", JSVal.num x), ("y", JSVal.num y),
          ("width", JSVal.num w), ("height", JSVal.num h)]) W H =
        (let errors :=
          (if x < 0 then [notNegMsg "x"] else []) ++
          (if y < 0 then [notNegMsg "y"] else []) ++
          (if w ≤ 0 then [notPosMsg "width"] else []) ++
          (if h ≤ 0 then [notPosMsg "height"] else []) ++
          (if x + w > W then [rightEdgeMsg] else []) ++
          (if y + h > H then [bottomEdgeMsg] else [])
         (errors.isEmpty, errors))) ∧
    (∀ W H : ℚ,
      notNumMsg "x" ∈ (validateAreaBounds (mkAreaWithField "x" JSVal.nan) W H).2) := by
  refine ⟨by rfl, ?_, ?_⟩
  · intro x y w h W H
    show (let errors :=
            boundsFieldErrors "x" (some x) ++ boundsFieldErrors "y" (some y) ++
            boundsFieldErrors "width" (some w) ++ boundsFieldErrors "height" (some h) ++
            (if qAdd x w > W then [rightEdgeMsg] else []) ++
            (if qAdd y h > H then [bottomEdgeMsg] else [])
          (errors.isEmpty, errors)) = _
    rw [bfe_x, bfe_y, bfe_width, bfe_height, qAdd_eq_add, qAdd_eq_add]
  · intro W H
    show notNumMsg "x" ∈
      boundsFieldErrors "x" none ++ boundsFieldErrors "y" (some 1) ++
      boundsFieldErrors "width" (some 1) ++ boundsFieldErrors "height" (some 1) ++
      (match (none : Option ℚ), (some (1 : ℚ)) with
       | some x, some w => if qAdd x w > W then [rightEdgeMsg] else []
       | _, _ => []) ++
      (if qAdd 1 1 > H then [bottomEdgeMsg] else [])
    simp [boundsFieldErrors]

theorem coerceField_nan_at (f : String) (s : String)
    (hnan : jsNumberOfString (String.mk (replaceFirstCommaDot s.data)) = none)
    (hidx : jsIndex (mkAreaWithField f (JSVal.str s)) f = JSVal.str s)
    (hset : jsSetField (mkAreaWithField f (JSVal.str s)) f JSVal.nan =
      mkAreaWithField f JSVal.nan) :
    coerceField (mkAreaWithField f (JSVal.str s)) f = mkAreaWithField f JSVal.nan := by
  unfold coerceField
  rw [if_neg (by rw [hidx]; intro hx; cases hx)]
  rw [hidx]
  rw [show jsToString (JSVal.str s) = s from rfl, hnan]
  exact hset

theorem validateAreasFrom_cons (idx : Nat) (a : JSVal) (rest : List JSVal) :
    validateAreasFrom idx (a :: rest) =
      (match validateArea a idx with
       | .error e => Except.error e
       | .ok a2 => (validateAreasFrom (idx + 1) rest).map (a2 :: ·)) := rfl

theorem validateData_arr (areas : List JSVal) :
    validateInteractiveAreasData (JSVal.arr areas) = validateAreasFrom 0 areas := rfl

theorem c9aux_x (s : String)
    (hnan : jsNumberOfString (String.mk (replaceFirstCommaDot s.data)) = none) :
    validateInteractiveAreasData (JSVal.arr [mkAreaWithField "x" (JSVal.str s)]) =
      .ok [mkAreaWithField "x" JSVal.nan] := by
  have hc : coerceNumericFields (mkAreaWithField "x" (JSVal.str s)) =
      mkAreaWithField "x" JSVal.nan := by
    unfold coerceNumericFields
    rw [coerceField_nan_at "x" s hnan rfl rfl]
    rfl
  have hva : validateArea (mkAreaWithField "x" (JSVal.str s)) 0 =
      .ok (mkAreaWithField "x" JSVal.nan) := by
    unfold validateArea
    rw [show firstMissingRequired (mkAreaWithField "x" (JSVal.str s)) = none from rfl, hc]
    rfl
  rw [validateData_arr, validateAreasFrom_cons, hva]
  rfl

theorem c9aux_y (s : String)
    (hnan : jsNumberOfString (String.mk (replaceFirstCommaDot s.data)) = none) :
    validateInteractiveAreasData (JSVal.arr [mkAreaWithField "y" (JSVal.str s)]) =
      .ok [mkAreaWithField "y" JSVal.nan] := by
  have hc : coerceNumericFields (mkAreaWithField "y" (JSVal.str s)) =
      mkAreaWithField "y" JSVal.nan := by
    unfold coerceNumericFields
    rw [show coerceField (mkAreaWithField "y" (JSVal.str s)) "x" =
          mkAreaWithField "y" (JSVal.str s) from rfl,
        coerceField_nan_at "y" s hnan rfl rfl]
    rfl
  have hva : validateArea (mkAreaWithField "y" (JSVal.str s)) 0 =
      .ok (mkAreaWithField "y" JSVal.nan) := by
    unfold validateArea
    rw [show firstMissingRequired (mkAreaWithField "y" (JSVal.str s)) = none from rfl, hc]
    rfl
  rw [validateData_arr, validateAreasFrom_cons, hva]
  rfl

theorem c9aux_width (s : String)
    (hnan : jsNumberOfString (String.mk (replaceFirstCommaDot s.data)) = none) :
    validateInteractiveAreasData (JSVal.arr [mkAreaWithField "width" (JSVal.str s)]) =
      .ok [mkAreaWithField "width" JSVal.nan] := by
  have hc : coerceNumericFields (mkAreaWithField "width" (JSVal.str s)) =
      mkAreaWithField "width" JSVal.nan := by
    unfold coerceNumericFields
    rw [show coerceField (mkAreaWithField "width" (JSVal.str s)) "x" =
          mkAreaWithField "width" (JSVal.str s) from rfl]
    rw [show coerceField (mkAreaWithField "width" (JSVal.str s)) "y" =
          mkAreaWithField "width" (JSVal.str s) from rfl]
    rw [coerceField_nan_at "width" s hnan rfl rfl]
    rfl
  have hva : validateArea (mkAreaWithField "width" (JSVal.str s)) 0 =
      .ok (mkAreaWithField "width" JSVal.nan) := by
    unfold validateArea
    rw [show firstMissingRequired (mkAreaWithField "width" (JSVal.str s)) = none from rfl, hc]
    rfl
  rw [validateData_arr, validateAreasFrom_cons, hva]
  rfl

theorem c9aux_height (s : String)
    (hnan : jsNumberOfString (String.mk (replaceFirstCommaDot s.data)) = none) :
    validateInteractiveAreasData (JSVal.arr [mkAreaWithField "height" (JSVal.str s)]) =
      .ok [mkAreaWithField "height" JSVal.nan] := by
  have hc : coerceNumericFields (mkAreaWithField "height" (JSVal.str s)) =
      mkAreaWithField "height" JSVal.nan := by
    unfold coerceNumericFields
    rw [show coerceField (mkAreaWithField "height" (JSVal.str s)) "x" =
          mkAreaWithField "height" (JSVal.str s) from rfl]
    rw [show coerceField (mkAreaWithField "height" (JSVal.str s)) "y" =
          mkAreaWithField "height" (JSVal.str s) from rfl]
    rw [show coerceField (mkAreaWithField "height" (JSVal.str s)) "width" =
          mkAreaWithField "height" (JSVal.str s) from rfl]
    rw [coerceField_nan_at "height" s hnan rfl rfl]
  have hva : validateArea (mkAreaWithField "height" (JSVal.str s)) 0 =
      .ok (mkAreaWithField "height" JSVal.nan) := by
    unfold validateArea
    rw [show firstMissingRequired (mkAreaWithField "height" (JSVal.str s)) = none from rfl, hc]
    rfl
  rw [validateData_arr, validateAreasFrom_cons, hva]
  rfl

/-- C9: a region whose `x`, `y`, `width` or `height` holds a string that
does not denote a number passes the Schema Validator without error: the
coercion yields `NaN`, whose `typeof` is `number`, so the type check
passes; the value is only flagged later by the Region Bounds Validation
as a non-numeric field. -/
theorem c9_nonnumeric_string_passes_schema (s : String)
    (hnan : jsNumberOfString (String.mk (replaceFirstCommaDot s.data)) = none) :
    typeofJS JSVal.nan = "number" ∧
    (validateInteractiveAreasData (JSVal.arr [mkAreaWithField "x" (JSVal.str s)]) =
        .ok [mkAreaWithField "x" JSVal.nan] ∧
      ∀ W H : ℚ, notNumMsg "x" ∈ (validateAreaBounds (mkAreaWithField "x" JSVal.nan) W H).2) ∧
    (validateInteractiveAreasData (JSVal.arr [mkAreaWithField "y" (JSVal.str s)]) =
        .ok [mkAreaWithField "y" JSVal.nan] ∧
      ∀ W H : ℚ, notNumMsg "y" ∈ (validateAreaBounds (mkAreaWithField "y" JSVal.nan) W H).2) ∧
    (validateInteractiveAreasData (JSVal.arr [mkAreaWithField "width" (JSVal.str s)]) =
        .ok [mkAreaWithField "width" JSVal.nan] ∧
      ∀ W H : ℚ,
        notNumMsg "width" ∈ (validateAreaBounds (mkAreaWithField "width" JSVal.nan) W H).2) ∧
    (validateInteractiveAreasData (JSVal.arr [mkAreaWithField "height" (JSVal.str s)]) =
        .ok [mkAreaWithField "height" JSVal.nan] ∧
      ∀ W H : ℚ,
        notNumMsg "height" ∈
          (validateAreaBounds (mkAreaWithField "height" JSVal.nan) W H).2) := by
  refine ⟨rfl, ⟨c9aux_x s hnan, ?_⟩, ⟨c9aux_y s hnan, ?_⟩,
    ⟨c9aux_width s hnan, ?_⟩, ⟨c9aux_height s hnan, ?_⟩⟩ <;>
    intro W H <;>
    exact List.Mem.head _

/-- C9 witness: the non-numeric string "abc". -/
theorem c9_witness :
    jsNumberOfString (String.mk (replaceFirstCommaDot "abc".data)) = none ∧
    validateInteractiveAreasData (JSVal.arr [mkAreaWithField "x" (JSVal.str "abc")]) =
      .ok [mkAreaWithField "x" JSVal.nan] ∧
    notNumMsg "x" ∈ (validateAreaBounds (mkAreaWithField "x" JSVal.nan) 90 200).2 :=
  ⟨rfl, (c9_nonnumeric_string_passes_schema "abc" rfl).2.1.1,
    (c9_nonnumeric_string_passes_schema "abc" rfl).2.1.2 90 200⟩

/-! ### The CLI tool (C7) and empty matchValue (C3) -/

theorem jsIncludes_empty (s : String) : jsIncludes s "" = true := by
  unfold jsIncludes
  rw [List.any_eq_true]
  exact ⟨[], (List.mem_tails _ _).mpr List.nil_suffix, by rfl⟩

/-- C3 (counterexample to the claim as stated): the browser Matcher with
an empty match value returns every record whose field value is truthy —
here, all of them. -/
theorem c3_empty_matches_everything :
    filterDataByObject
      [JSVal.obj [("f", JSVal.str "a")], JSVal.obj [("f", JSVal.str "b")]] "f"
      (JSVal.str "") =
      [JSVal.obj [("f", JSVal.str "a")], JSVal.obj [("f", JSVal.str "b")]] := by rfl

/-- C3 (amended): the browser Matcher treats an empty match value as
matching every record with a truthy field value (the empty string is a
substring of everything); it is the external consistency checker that
treats an empty or missing `matchValue` as invalid, pushing the warning
`matchValue is missing or empty` for that area instead of matching. -/
theorem c3_empty_matchValue_behavior :
    (∀ (dataArray : List JSVal) (matchField : String),
      filterDataByObject dataArray matchField (JSVal.str "") =
        dataArray.filter (fun item => !(jsIndex item matchField).falsy)) ∧
    (∀ (data : List JSVal) (area : JSVal) (index : Nat),
      (match jsIndex area "matchField" with | JSVal.str s => jsTrim s | _ => "") ≠ "" →
      (match (if !isUndefB (jsIndex area "matchValue") then jsIndex area "matchValue"
              else jsIndex area "name") with
       | JSVal.str s => jsTrim s
       | _ => "") = "" →
      checkAreaWarning data area index =
        some ((if (jsIndex area "name").falsy then "#" ++ toString (index + 1)
               else jsToString (jsIndex area "name")),
              "matchValue is missing or empty")) := by
  constructor
  · intro dataArray matchField
    unfold filterDataByObject
    apply List.filter_congr
    intro item _
    cases hf : (jsIndex item matchField).falsy
    · rw [if_neg (by rw [hf]; intro hx; cases hx)]
      simp only [Bool.not_false]
      rw [show normalizeStringValue (JSVal.str "") = "" from rfl]
      rw [jsIncludes_empty]
      simp
    · rw [if_pos (by rw [hf])]
      simp [hf]
  · intro data area index hf hv
    unfold checkAreaWarning
    rw [if_neg hf, if_pos hv]

/-- C3 witness: an area whose `matchValue` is absent and whose `name` is
the empty string gets the `matchValue is missing or empty` warning. -/
theorem c3_witness :
    checkAreaWarning [] (JSVal.obj [("name", JSVal.str ""), ("matchField", JSVal.str "f")])
      0 = some ("#1", "matchValue is missing or empty") := by
  have h := c3_empty_matchValue_behavior.2 []
    (JSVal.obj [("name", JSVal.str ""), ("matchField", JSVal.str "f")]) 0
    (by decide) (by rfl)
  exact h

/-- C7: the CLI exits 1 on any fatal error (unreadable file, bad JSON
shape, missing required field) printing that error, and exits 0 on
success, printing either the success line or the warning header followed
by one ` - <name>: <reason>` line per unmatched region; in particular the
spec's concrete data/areas pair succeeds, and changing `matchValue` to
`"Z9"` still exits 0 with exactly one warning line citing `"Z9"`. -/
theorem c7_cli_exit_codes_and_output :
    (∀ dc, cliMain none dc = (1, [readAreasErrMsg])) ∧
    (∀ ac, cliMain (some ac) none = (1, [readDataErrMsg])) ∧
    (∀ ac dc e, parseJsonArrayCli ac "interactive areas" = .error e →
      cliMain (some ac) (some dc) = (1, [e])) ∧
    (∀ ac dc areasRaw e, parseJsonArrayCli ac "interactive areas" = .ok areasRaw →
      validateAreasShapeFrom 0 areasRaw = .error e →
      cliMain (some ac) (some dc) = (1, [e])) ∧
    (∀ ac dc areasRaw areas dataRaw data,
      parseJsonArrayCli ac "interactive areas" = .ok areasRaw →
      validateAreasShapeFrom 0 areasRaw = .ok areas →
      parseJsonArrayCli dc "data array" = .ok dataRaw →
      ensureDataObjectsFrom 0 dataRaw = .ok data →
      cliMain (some ac) (some dc) =
        (if (cliWarningsFrom data 0 areas).isEmpty then (0, [successMsg])
         else (0, warnHeaderMsg :: (cliWarningsFrom data 0 areas).map fmtWarning))) ∧
    (∀ w, fmtWarning w = " - " ++ w.1 ++ ": " ++ w.2) ∧
    cliMain
      (some "[\x7b\"name\":\"Dock A\",\"x\":0,\"y\":0,\"width\":1,\"height\":1,\"matchField\":\"причал\",\"matchValue\":\"A1\"\x7d]")
      (some "[\x7b\"причал\":\"A1\"\x7d]") = (0, [successMsg]) ∧
    cliMain
      (some "[\x7b\"name\":\"Dock A\",\"x\":0,\"y\":0,\"width\":1,\"height\":1,\"matchField\":\"причал\",\"matchValue\":\"Z9\"\x7d]")
      (some "[\x7b\"причал\":\"A1\"\x7d]") =
      (0, [warnHeaderMsg, " - Dock A: Value \"Z9\" not found in field \"причал\""]) := by
  refine ⟨fun dc => rfl, fun ac => rfl, ?_, ?_, ?_, fun w => rfl, by rfl, by rfl⟩
  · intro ac dc e h
    show (match parseJsonArrayCli ac "interactive areas" with
          | Except.error e => ((1 : Nat), [e])
          | Except.ok areasRaw =>
            match validateAreasShapeFrom 0 areasRaw with
            | Except.error e => (1, [e])
            | Except.ok areas =>
              match parseJsonArrayCli dc "data array" with
              | Except.error e => (1, [e])
              | Except.ok dataRaw =>
                match ensureDataObjectsFrom 0 dataRaw with
                | Except.error e => (1, [e])
                | Except.ok data =>
                  let warnings := cliWarningsFrom data 0 areas
                  if warnings.isEmpty then (0, [successMsg])
                  else (0, warnHeaderMsg :: warnings.map fmtWarning)) = (1, [e])
    rw [h]
  · intro ac dc areasRaw e h1 h2
    show (match parseJsonArrayCli ac "interactive areas" with
          | Except.error e => ((1 : Nat), [e])
          | Except.ok areasRaw =>
            match validateAreasShapeFrom 0 areasRaw with
            | Except.error e => (1, [e])
            | Except.ok areas =>
              match parseJsonArrayCli dc "data array" with
              | Except.error e => (1, [e])
              | Except.ok dataRaw =>
                match ensureDataObjectsFrom 0 dataRaw with
                | Except.error e => (1, [e])
                | Except.ok data =>
                  let warnings := cliWarningsFrom data 0 areas
                  if warnings.isEmpty then (0, [successMsg])
                  else (0, warnHeaderMsg :: warnings.map fmtWarning)) = (1, [e])
    simp only [h1, h2]
  · intro ac dc areasRaw areas dataRaw data h1 h2 h3 h4
    show (match parseJsonArrayCli ac "interactive areas" with
          | Except.error e => ((1 : Nat), [e])
          | Except.ok areasRaw =>
            match validateAreasShapeFrom 0 areasRaw with
            | Except.error e => (1, [e])
            | Except.ok areas =>
              match parseJsonArrayCli dc "data array" with
              | Except.error e => (1, [e])
              | Except.ok dataRaw =>
                match ensureDataObjectsFrom 0 dataRaw with
                | Except.error e => (1, [e])
                | Except.ok data =>
                  let warnings := cliWarningsFrom data 0 areas
                  if warnings.isEmpty then (0, [successMsg])
                  else (0, warnHeaderMsg :: warnings.map fmtWarning)) = _
    simp only [h1, h2, h3, h4]

/-- C7 witness: an empty areas file is a fatal error (exit 1). -/
theorem c7_witness :
    cliMain (some "") (some "[\x7b\"причал\":\"A1\"\x7d]") =
      (1, ["interactive areas is empty."]) :=
  c7_cli_exit_codes_and_output.2.2.1 "" "[\x7b\"причал\":\"A1\"\x7d]"
    "interactive areas is empty." (by rfl)
